import Mathlib

/-!
Verification development for the AI-response parser of the nursing-documentation
backend (source file src/backend/utils/response_parser.py, function
parse_soap_response) and for the generation endpoint (source file
src/backend/api/routers/generation.py, function generate_note).

The Python parser works by regular-expression search. Every regex used by the
source consists only of case-insensitive literals, single-character classes
quantified by star, plus or question mark, one lazy capture group matching any
characters, and a trailing lookahead alternation that always includes the
end-of-string anchor. We therefore embed the patterns as token lists
(literal, class-with-quantifier, end anchor) plus a lazy-capture stage, and
implement a continuation-passing backtracking matcher that reproduces the
backtracking order of the Python engine: greedy quantifiers try largest counts
first, lazy capture extends one character at a time, alternatives are tried in
order, and search scans start positions left to right taking the first match.
-/

namespace SoapParse

/-- Whitespace as matched by the regex class backslash-s of Python for str
patterns, and stripped by the str.strip method (the sets coincide on every
character the program can meet; both are Unicode whitespace). -/
def isWs (c : Char) : Bool :=
  c == ' ' || c == '\t' || c == '\n' || c == '\r' || c == '\x0b' || c == '\x0c' ||
  c == '\x1c' || c == '\x1d' || c == '\x1e' || c == '\x1f' || c == '\x85' || c == '\xa0' ||
  c == ' ' || (' ' ≤ c && c ≤ ' ') || c == ' ' || c == ' ' ||
  c == ' ' || c == ' ' || c == '　'

/-- An ASCII capital letter. -/
def asciiUpper (c : Char) : Bool := 65 ≤ c.toNat && c.toNat ≤ 90

/-- Case-insensitive character comparison, as produced by the IGNORECASE flag
of every re call in the source (ASCII folding; the Japanese characters of the
patterns have no case). -/
def ciEq (c d : Char) : Bool :=
  c == d || (asciiUpper c && d.toNat == c.toNat + 32) || (asciiUpper d && c.toNat == d.toNat + 32)

/-- A character without an ASCII case counterpart: comparing it
case-insensitively is plain equality. -/
def caseless (c : Char) : Bool := !asciiUpper c && !(97 ≤ c.toNat && c.toNat ≤ 122)

theorem ciEq_caseless {a : Char} (h : caseless a = true) (b : Char) :
    ciEq a b = (a == b) := by
  unfold caseless asciiUpper at h
  rw [Bool.and_eq_true, Bool.not_eq_true', Bool.not_eq_true', Bool.and_eq_false_iff,
    Bool.and_eq_false_iff] at h
  unfold ciEq asciiUpper
  have h2 : (65 ≤ a.toNat && a.toNat ≤ 90) = false := by
    rcases h.1 with h1 | h1 <;> simp_all <;> omega
  rw [h2]
  simp only [Bool.false_and, Bool.or_false]
  cases hb : (65 ≤ b.toNat && b.toNat ≤ 90) with
  | false => simp
  | true =>
    rw [Bool.and_eq_true, decide_eq_true_iff, decide_eq_true_iff] at hb
    have h3 : (a.toNat == b.toNat + 32) = false := by
      rw [beq_eq_false_iff_ne]
      intro heq
      rcases h.2 with h4 | h4 <;> simp at h4 <;> omega
    simp [h3]

/-- Case-insensitive test that the pattern literal l is an initial segment of s. -/
def ciStarts : List Char → List Char → Bool
  | [], _ => true
  | _ :: _, [] => false
  | a :: as, b :: bs => ciEq a b && ciStarts as bs

/-- Exact (case-sensitive) initial-segment test, used for the substring
membership and index operations of Python (the in operator and str.index). -/
def startsWithEx : List Char → List Char → Bool
  | [], _ => true
  | _ :: _, [] => false
  | a :: as, b :: bs => a == b && startsWithEx as bs

/-- On a literal made of caseless characters (the Japanese headings, the
newline, the dashes), the case-insensitive initial-segment test is the exact
one. -/
theorem ciStarts_caseless {m : List Char} (h : m.all caseless = true) :
    ∀ u, ciStarts m u = startsWithEx m u := by
  induction m with
  | nil => intro u; cases u <;> rfl
  | cons a as ih =>
    intro u
    rw [List.all_cons, Bool.and_eq_true] at h
    cases u with
    | nil => rfl
    | cons b bs =>
      show (ciEq a b && ciStarts as bs) = (a == b && startsWithEx as bs)
      rw [ciEq_caseless h.1, ih h.2]

/-- One token of a compiled pattern: a case-insensitive literal, a quantified
single-character class (lower bound, optional upper bound, greedy flag), or
the end-of-string anchor (dollar without MULTILINE: matches at the end, or
just before a final newline). -/
inductive Tok where
  | lit (l : List Char)
  | cls (p : Char → Bool) (lo : Nat) (hi : Option Nat) (greedy : Bool)
  | dollar

/-- Length of the maximal run of characters satisfying p at the head of s. -/
def runLen (p : Char → Bool) : List Char → Nat
  | [] => 0
  | c :: t => if p c then runLen p t + 1 else 0

/-- Repetition counts a quantifier may take, in the order the Python engine
tries them: greedy quantifiers from the largest runnable count down to the
lower bound, non-greedy from the lower bound up. -/
def countRange (lo r : Nat) (greedy : Bool) : List Nat :=
  let base := (List.range (r + 1 - lo)).map (fun i => lo + i)
  if greedy then base.reverse else base

/-- Continuation-passing matcher for a token list at the head of s. Candidate
quantifier counts are tried in engine order and the first overall success
wins, which reproduces the backtracking of the Python engine. -/
def toksMatch {α : Type} : List Tok → List Char → (List Char → Option α) → Option α
  | [], s, k => k s
  | .lit l :: ts, s, k => if ciStarts l s then toksMatch ts (s.drop l.length) k else none
  | .cls p lo hi greedy :: ts, s, k =>
      let r := match hi with
        | some h => min h (runLen p s)
        | none => runLen p s
      (countRange lo r greedy).findSome? fun n => toksMatch ts (s.drop n) k
  | .dollar :: ts, s, k => if s.isEmpty || s == ['\n'] then toksMatch ts s k else none

/-- Does any alternative of a lookahead alternation match at the head of s? -/
def lookAny (look : List (List Tok)) (s : List Char) : Bool :=
  look.any fun alt => (toksMatch alt s fun _ => some ()).isSome

/-- The lazy capture stage: consume characters one at a time (at least need of
them) until the lookahead alternation matches at the current position, and
return the consumed characters together with the remaining suffix. This is
the behaviour of a lazy any-character group followed by a lookahead: the
engine tries the shortest extension first. -/
def capStop (look : List (List Tok)) (need : Nat) (acc s : List Char) :
    Option (List Char × List Char) :=
  if need == 0 && lookAny look s then some (acc.reverse, s)
  else
    match s with
    | [] => none
    | c :: t => capStop look (need - 1) (c :: acc) t

/-- A compiled field pattern: the tokens before the capture group, the
lookahead alternation bounding the capture, and the minimal capture length
(one for a lazy plus). -/
structure FieldPat where
  pre : List Tok
  look : List (List Tok)
  minCap : Nat

/-- Match a field pattern anchored at the head of s, returning the text of the
capture group. Backtracking into the pre-capture tokens is reproduced by the
continuation: for each candidate prefix parse in engine order, the capture
stage runs, and the first overall success is returned. -/
def matchFieldAt (fp : FieldPat) (s : List Char) : Option (List Char) :=
  toksMatch fp.pre s fun s2 => (capStop fp.look fp.minCap [] s2).map (fun pr => pr.1)

/-- re.search: scan start positions left to right and return the capture of
the first position where the whole pattern matches. -/
def searchField (fp : FieldPat) : List Char → Option (List Char)
  | [] => matchFieldAt fp []
  | s@(_ :: t) =>
    match matchFieldAt fp s with
    | some c => some c
    | none => searchField fp t

/-- An ordered pattern chain: the first pattern that matches anywhere wins and
later patterns are not attempted (the for-loop with break of the source). -/
def fieldVal (pats : List FieldPat) (s : List Char) : Option (List Char) :=
  pats.findSome? fun fp => searchField fp s

/-- Python str.strip: remove whitespace from both ends. -/
def pyStrip (s : List Char) : List Char :=
  ((s.dropWhile isWs).reverse.dropWhile isWs).reverse

/-- Python str.replace of carriage-return-line-feed by line-feed: leftmost,
non-overlapping. -/
def replCRLF : List Char → List Char
  | [] => []
  | [c] => [c]
  | c :: d :: t =>
    if c == '\r' && d == '\n' then '\n' :: replCRLF t else c :: replCRLF (d :: t)

/-- First occurrence split: some (before, after) where the marker first occurs
(Python str.index), none when the marker does not occur (the in test fails). -/
def splitOnFirst (m : List Char) : List Char → Option (List Char × List Char)
  | [] => if startsWithEx m [] then some ([], []) else none
  | s@(c :: t) =>
    if startsWithEx m s then some ([], s.drop m.length)
    else (splitOnFirst m t).map fun pr => (c :: pr.1, pr.2)

theorem findSome?_some {α β : Type} {f : α → Option β} {l : List α} {v : β}
    (h : l.findSome? f = some v) : ∃ a ∈ l, f a = some v := by
  induction l with
  | nil => simp [List.findSome?_nil] at h
  | cons a as ih =>
    rw [List.findSome?_cons] at h
    cases hfa : f a with
    | some b => rw [hfa] at h; exact ⟨a, by simp, by simpa [hfa] using h⟩
    | none =>
      rw [hfa] at h
      obtain ⟨x, hx, hfx⟩ := ih h
      exact ⟨x, by simp [hx], hfx⟩

theorem capStop_rest_length {look : List (List Tok)} :
    ∀ {s : List Char} {need : Nat} {acc cap rest : List Char},
    capStop look need acc s = some (cap, rest) → rest.length ≤ s.length := by
  intro s
  induction s with
  | nil =>
    intro need acc cap rest h
    unfold capStop at h
    split at h
    · simp_all
    · simp at h
  | cons c t ih =>
    intro need acc cap rest h
    unfold capStop at h
    split at h
    · obtain ⟨h1, h2⟩ := Prod.mk.injEq .. ▸ (Option.some.injEq .. ▸ h)
      simp [← h2]
    · exact Nat.le_succ_of_le (ih h)

theorem toksMatch_some {α : Type} :
    ∀ (ts : List Tok) (s : List Char) (k : List Char → Option α) (v : α),
    toksMatch ts s k = some v → ∃ r, r.length ≤ s.length ∧ k r = some v := by
  intro ts
  induction ts with
  | nil => intro s k v h; exact ⟨s, Nat.le_refl _, h⟩
  | cons tk ts ih =>
    intro s k v h
    cases tk with
    | lit l =>
      unfold toksMatch at h
      split at h
      · obtain ⟨r, hr, hk⟩ := ih _ _ _ h
        exact ⟨r, le_trans hr (by simp), hk⟩
      · simp at h
    | cls p lo hi greedy =>
      unfold toksMatch at h
      obtain ⟨n, _, hn⟩ := findSome?_some h
      obtain ⟨r, hr, hk⟩ := ih _ _ _ hn
      exact ⟨r, le_trans hr (by simp), hk⟩
    | dollar =>
      unfold toksMatch at h
      split at h
      · exact ih _ _ _ h
      · simp at h

/-- Pattern literal of the visit-information removal (the visit-info header). -/
def visitLit : List Char := "【訪問情報】".data

/-- Lookahead bounding the removed visit-information block: the next
bracketed heading on a later line, a markdown heading, or end of string. -/
def visitLook : List (List Tok) :=
  [[.lit ['\n'], .cls isWs 0 none true, .lit ['【']], [.lit "###".data], [.dollar]]

/-- One attempted match of the visit-information pattern at the head of s,
returning the suffix after the match. -/
def visitMatchAt (s : List Char) : Option (List Char) :=
  if ciStarts visitLit s then (capStop visitLook 0 [] (s.drop visitLit.length)).map (fun pr => pr.2)
  else none

theorem visitMatchAt_length {s rest : List Char} (h : visitMatchAt s = some rest) :
    s ≠ [] → rest.length < s.length := by
  intro hs
  unfold visitMatchAt at h
  split at h
  · obtain ⟨⟨cap, r⟩, hc, hr⟩ := Option.map_eq_some'.mp h
    have h1 : r.length ≤ (s.drop visitLit.length).length := capStop_rest_length hc
    have h2 : (s.drop visitLit.length).length = s.length - visitLit.length := by simp
    have h3 : 0 < s.length := List.length_pos.mpr hs
    have h4 : 0 < visitLit.length := by decide
    have h5 : r = rest := by simpa using hr
    have h6 := congrArg List.length h5
    omega
  · simp at h

/-- Fuel-indexed scan of the visit-information substitution: remove each
non-overlapping leftmost match and continue after it. The fuel only bounds
the recursion (each step strictly shrinks the text, see visitMatchAt_length),
keeping the definition structurally recursive. -/
def subVisitF : Nat → List Char → List Char
  | 0, s => s
  | _ + 1, [] => []
  | fuel + 1, c :: t =>
    match visitMatchAt (c :: t) with
    | some rest => subVisitF fuel rest
    | none => c :: subVisitF fuel t

/-- re.sub of the visit-information pattern by the empty string: scan left to
right, remove each non-overlapping match, continue after it. -/
def subVisit (s : List Char) : List Char := subVisitF (s.length + 1) s

/-- The compiled pattern of the trailing-separator removal inside the
plan-of-care sub-fields (a newline, whitespace, three dashes, whitespace,
then the end anchor). -/
def dashToks : List Tok :=
  [.lit ['\n'], .cls isWs 0 none true, .lit "---".data, .cls isWs 0 none true, .dollar]

/-- One attempted match of the trailing-separator pattern at the head of s,
returning the suffix after the match. -/
def dashMatchAt (s : List Char) : Option (List Char) :=
  toksMatch dashToks s fun r => some r

theorem dashMatchAt_length {s rest : List Char} (h : dashMatchAt s = some rest) :
    rest.length < s.length := by
  unfold dashMatchAt dashToks at h
  rw [toksMatch] at h
  split at h
  next hs =>
    obtain ⟨r, hr, hk⟩ := toksMatch_some _ _ _ _ h
    have h5 : r = rest := by simpa using hk
    cases s with
    | nil => simp [ciStarts] at hs
    | cons c t =>
      have h6 : r.length ≤ t.length := by simpa using hr
      have h7 := congrArg List.length h5
      simp at h7 ⊢
      omega
  · simp at h

/-- Fuel-indexed scan of the trailing-separator substitution. -/
def subDashesF : Nat → List Char → List Char
  | 0, s => s
  | _ + 1, [] => []
  | fuel + 1, c :: t =>
    match dashMatchAt (c :: t) with
    | some rest => subDashesF fuel rest
    | none => c :: subDashesF fuel t

/-- re.sub of the trailing-separator pattern by the empty string. -/
def subDashes (s : List Char) : List Char := subDashesF (s.length + 1) s

/-- The assessment sub-record. Field names are the English equivalents of the
fixed Japanese dictionary keys of the source: symptomProgression is the
symptom-progression key, riskAssessment the risk-evaluation key,
backgroundFactors the background-factors key and nextObservationPoints the
next-observation-points key. -/
structure AOut where
  symptomProgression : String
  riskAssessment : String
  backgroundFactors : String
  nextObservationPoints : String
deriving DecidableEq, Repr

/-- The plan-of-care sub-record of the SOAP record: todayInterventions is the
today-implemented-care key, futurePolicy the future-policy key. -/
structure POut where
  todayInterventions : String
  futurePolicy : String
deriving DecidableEq, Repr

/-- The SOAP record: keys s, o, a (assessment sub-record), p (plan-of-care
sub-record). -/
structure SoapOutput where
  s : String
  o : String
  a : AOut
  p : POut
deriving DecidableEq, Repr

/-- The care-plan record: longTermGoal, shortTermGoal and nursingPolicy are
the long-term-goal, short-term-goal and nursing-assistance-policy keys. -/
structure PlanOutput where
  longTermGoal : String
  shortTermGoal : String
  nursingPolicy : String
deriving DecidableEq, Repr

/-- The full return value: the soap and plan dictionaries. -/
structure ParseResult where
  soap : SoapOutput
  plan : PlanOutput
deriving DecidableEq, Repr

/-- Shorthand token constructors used by the compiled patterns. -/
def lit (s : String) : Tok := .lit s.data

/-- The star-quantified whitespace class. -/
def wsStar : Tok := .cls isWs 0 none true

/-- The plus-quantified newline. -/
def nlPlus : Tok := .cls (fun c => c == '\n') 1 none true

/-- The class of an opening parenthesis, full-width or ASCII, exactly once. -/
def parenO : Tok := .cls (fun c => c == '（' || c == '(') 1 (some 1) true

/-- The class of a closing parenthesis, exactly once. -/
def parenC : Tok := .cls (fun c => c == '）' || c == ')') 1 (some 1) true

/-- The class of an optional closing parenthesis. -/
def parenCOpt : Tok := .cls (fun c => c == '）' || c == ')') 0 (some 1) true

/-- The class of an optional colon, ASCII or full-width. -/
def colonOpt : Tok := .cls (fun c => c == ':' || c == '：') 0 (some 1) true

/-- The class of a mandatory colon, ASCII or full-width. -/
def colonOne : Tok := .cls (fun c => c == ':' || c == '：') 1 (some 1) true

/-- The two subjective patterns (s_patterns of the source): bold-marked
heading first, plain heading second. -/
def sPats : List FieldPat :=
  [⟨[lit "**S", parenO, lit "主観", parenC, lit "**", wsStar, nlPlus],
    [[lit "\n", wsStar, lit "**O", parenO, lit "客観", parenC, lit "**"], [.dollar]], 1⟩,
   ⟨[lit "S", parenO, lit "主観", parenC, wsStar, colonOpt, wsStar, nlPlus],
    [[lit "\n", wsStar, lit "O", parenO, lit "客観", parenC], [.dollar]], 1⟩]

/-- The two objective patterns (o_patterns of the source). -/
def oPats : List FieldPat :=
  [⟨[lit "**O", parenO, lit "客観", parenC, lit "**", wsStar, nlPlus],
    [[lit "\n", wsStar, lit "**A", parenO, lit "アセスメント", parenC, lit "**"], [.dollar]], 1⟩,
   ⟨[lit "O", parenO, lit "客観", parenC, wsStar, colonOpt, wsStar, nlPlus],
    [[lit "\n", wsStar, lit "A", parenO, lit "アセスメント", parenC], [.dollar]], 1⟩]

/-- The two assessment patterns (a_patterns of the source). -/
def aPats : List FieldPat :=
  [⟨[lit "**A", parenO, lit "アセスメント", parenC, lit "**", wsStar, nlPlus],
    [[lit "\n", wsStar, lit "###", wsStar, lit "P", parenO, lit "計画", parenC],
     [lit "\n", wsStar, lit "**P", parenO, lit "計画", parenC, lit "**"], [.dollar]], 1⟩,
   ⟨[lit "A", parenO, lit "アセスメント", parenC, wsStar, colonOpt, wsStar, nlPlus],
    [[lit "\n", wsStar, lit "P", parenO, lit "計画", parenC], [.dollar]], 1⟩]

/-- The lookahead shared by the four assessment sub-section patterns: the next
bracketed heading on a later line, or end of string. -/
def aSecLook : List (List Tok) := [[lit "\n", wsStar, lit "【"], [.dollar]]

/-- Assessment sub-section pattern: symptom progression. -/
def symPat : FieldPat := ⟨[lit "【症状推移】", wsStar, nlPlus], aSecLook, 1⟩

/-- Assessment sub-section pattern: risk evaluation. The heading must carry
its parenthesised qualifier (suicide, harm to others, medication), the
closing parenthesis being optional. -/
def riskPat : FieldPat :=
  ⟨[lit "【リスク評価", parenO, lit "自殺・他害・服薬", parenCOpt, lit "】", wsStar, nlPlus],
   aSecLook, 1⟩

/-- Assessment sub-section pattern: background factors. -/
def backPat : FieldPat := ⟨[lit "【背景要因】", wsStar, nlPlus], aSecLook, 1⟩

/-- Assessment sub-section pattern: next observation points. -/
def nextPat : FieldPat := ⟨[lit "【次回観察ポイント】", wsStar, nlPlus], aSecLook, 1⟩

/-- Lookahead of the first two plan-of-care block patterns: the plan-document
heading in markdown or bracket form, or end of string. -/
def pLook12 : List (List Tok) :=
  [[lit "\n", wsStar, lit "###", wsStar, lit "訪問看護計画書"],
   [lit "\n", wsStar, lit "【看護計画書】"], [.dollar]]

/-- The three plan-of-care block patterns (p_patterns of the source). -/
def pPats : List FieldPat :=
  [⟨[lit "###", wsStar, lit "P", parenO, lit "計画", parenC, wsStar, nlPlus], pLook12, 1⟩,
   ⟨[lit "**P", parenO, lit "計画", parenC, lit "**", wsStar, nlPlus], pLook12, 1⟩,
   ⟨[lit "P", parenO, lit "計画", parenC, wsStar, colonOpt, wsStar, nlPlus],
    [[lit "\n", wsStar, lit "訪問看護計画書"], [lit "\n", wsStar, lit "【看護計画書】"],
     [.dollar]], 1⟩]

/-- The trailing-separator lookahead alternative shared by the four
plan-of-care sub-field patterns: a newline, whitespace, three dashes. -/
def dashAlt : List Tok := [lit "\n", wsStar, lit "---"]

/-- Bold pattern of the today-implemented-care sub-field. -/
def todayBold : FieldPat :=
  ⟨[lit "**【本日実施した援助】**", wsStar, nlPlus],
   [[lit "\n", wsStar, lit "**【次回以降の方針】**"], [lit "\n", wsStar, lit "【次回以降の方針】"],
    dashAlt, [lit "\n", wsStar, lit "###", wsStar, lit "訪問看護計画書"],
    [lit "\n", wsStar, lit "【看護計画書】"], [.dollar]], 1⟩

/-- Plain fallback pattern of the today-implemented-care sub-field. -/
def todayPlain : FieldPat :=
  ⟨[lit "【本日実施した援助】", wsStar, nlPlus],
   [[lit "\n", wsStar, lit "【次回以降の方針】"], dashAlt,
    [lit "\n", wsStar, lit "###", wsStar, lit "訪問看護計画書"],
    [lit "\n", wsStar, lit "【看護計画書】"], [.dollar]], 1⟩

/-- Bold pattern of the future-policy sub-field. -/
def futureBold : FieldPat :=
  ⟨[lit "**【次回以降の方針】**", wsStar, nlPlus],
   [dashAlt, [lit "\n", wsStar, lit "###", wsStar, lit "訪問看護計画書"],
    [lit "\n", wsStar, lit "【看護計画書】"], [.dollar]], 1⟩

/-- Plain fallback pattern of the future-policy sub-field. -/
def futurePlain : FieldPat :=
  ⟨[lit "【次回以降の方針】", wsStar, nlPlus],
   [dashAlt, [lit "\n", wsStar, lit "###", wsStar, lit "訪問看護計画書"],
    [lit "\n", wsStar, lit "【看護計画書】"], [.dollar]], 1⟩

/-- Bold pattern of the long-term goal (lookahead: the next bold key). -/
def longBold : FieldPat :=
  ⟨[lit "**長期目標", colonOne, lit "**", wsStar, nlPlus],
   [[lit "\n", wsStar, lit "**短期目標", colonOne, lit "**"], [.dollar]], 1⟩

/-- Plain pattern of the long-term goal. -/
def longPlain : FieldPat :=
  ⟨[lit "長期目標", colonOne, wsStar, nlPlus],
   [[lit "\n", wsStar, lit "短期目標", colonOne], [.dollar]], 1⟩

/-- Bold pattern of the short-term goal. -/
def shortBold : FieldPat :=
  ⟨[lit "**短期目標", colonOne, lit "**", wsStar, nlPlus],
   [[lit "\n", wsStar, lit "**看護援助の方針", colonOne, lit "**"], [.dollar]], 1⟩

/-- Plain pattern of the short-term goal. -/
def shortPlain : FieldPat :=
  ⟨[lit "短期目標", colonOne, wsStar, nlPlus],
   [[lit "\n", wsStar, lit "看護援助の方針", colonOne], [.dollar]], 1⟩

/-- Bold pattern of the nursing-assistance policy (last key: lookahead is the
next bracketed heading or end). -/
def policyBold : FieldPat :=
  ⟨[lit "**看護援助の方針", colonOne, lit "**", wsStar, nlPlus],
   [[lit "\n", wsStar, lit "【"], [.dollar]], 1⟩

/-- Plain pattern of the nursing-assistance policy. -/
def policyPlain : FieldPat :=
  ⟨[lit "看護援助の方針", colonOne, wsStar, nlPlus],
   [[lit "\n", wsStar, lit "【"], [.dollar]], 1⟩

/-- Strip a captured group and package it as the field value; a missed
extraction is the empty string. -/
def stripVal : Option (List Char) → String
  | some c => ⟨pyStrip c⟩
  | none => ""

/-- The raw (unstripped) captured group, as kept for the assessment and
plan-of-care block contents; a miss is the empty string. -/
def rawCap : Option (List Char) → List Char
  | some c => c
  | none => []

/-- Bold pattern first, plain fallback second (the per-key fallback of the
plan-of-care sub-fields and of the care-plan fields). -/
def searchChain (a b : FieldPat) (s : List Char) : Option (List Char) :=
  match searchField a s with
  | some c => some c
  | none => searchField b s

/-- Value of a plan-of-care sub-field: strip the capture, remove a trailing
separator line, strip again. -/
def pVal (r : Option (List Char)) : String :=
  match r with
  | some c => ⟨pyStrip (subDashes (pyStrip c))⟩
  | none => ""

/-- Extraction of the whole SOAP half from the soap text: subjective,
objective, the assessment block with its four sub-fields, and the
plan-of-care block with its two sub-fields. -/
def soapFrom (st : List Char) : SoapOutput :=
  let aContent := rawCap (fieldVal aPats st)
  let pContent := rawCap (fieldVal pPats st)
  { s := stripVal (fieldVal sPats st)
    o := stripVal (fieldVal oPats st)
    a :=
      if aContent.isEmpty then ⟨"", "", "", ""⟩
      else
        ⟨stripVal (searchField symPat aContent), stripVal (searchField riskPat aContent),
         stripVal (searchField backPat aContent), stripVal (searchField nextPat aContent)⟩
    p :=
      if pContent.isEmpty then ⟨"", ""⟩
      else
        ⟨pVal (searchChain todayBold todayPlain pContent),
         pVal (searchChain futureBold futurePlain pContent)⟩ }

/-- Extraction of the care-plan record from the plan text. -/
def planFrom (pt : List Char) : PlanOutput :=
  if pt.isEmpty then ⟨"", "", ""⟩
  else
    ⟨stripVal (searchChain longBold longPlain pt),
     stripVal (searchChain shortBold shortPlain pt),
     stripVal (searchChain policyBold policyPlain pt)⟩

/-- The markdown plan marker (plan_marker1 of the source). -/
def marker1 : List Char := "### 訪問看護計画書".data

/-- The bracket plan marker (plan_marker2 of the source). -/
def marker2 : List Char := "【看護計画書】".data

/-- Split of the cleaned text into the SOAP half and the plan half: the
markdown marker is tried first, the bracket marker second, and without either
the whole text is the SOAP half with an empty plan half. Both halves are
stripped. -/
def splitSections (cleaned : List Char) : List Char × List Char :=
  match splitOnFirst marker1 cleaned with
  | some pr => (pyStrip pr.1, pyStrip pr.2)
  | none =>
    match splitOnFirst marker2 cleaned with
    | some pr => (pyStrip pr.1, pyStrip pr.2)
    | none => (cleaned, [])

/-- Line-ending normalisation and strip (the normalized variable). -/
def normalizeText (t : String) : List Char := pyStrip (replCRLF t.data)

/-- The cleaned text: visit-information blocks removed from the normalised
text, then stripped (the cleaned_text variable). -/
def cleanedOf (t : String) : List Char := pyStrip (subVisit (normalizeText t))

/-- The all-default return value, produced for the empty input. -/
def defaultResult : ParseResult := ⟨⟨"", "", ⟨"", "", "", ""⟩, ⟨"", ""⟩⟩, ⟨"", "", ""⟩⟩

/-- The parser: parse_soap_response of the source. An empty input returns the
defaults at once; otherwise the text is normalised, the visit-information
block removed, the result split at the first plan marker, and each field
extracted by its pattern chain. -/
def parse_soap_response (text : String) : ParseResult :=
  if text.data = [] then defaultResult
  else
    let st := splitSections (cleanedOf text)
    ⟨soapFrom st.1, planFrom st.2⟩

/-- The concrete input of the boundary-correctness scenario of the spec. -/
def c4doc : String := "S（主観）\n患者は落ち着いている。\nO（客観）\n表情は穏やか。\n"

/-- Full-format (bold markup) reference document containing every SOAP
sub-section and a care-plan section with all three fields. -/
def refBold : String := "**S（主観）**\n気分は安定している。\n**O（客観）**\n表情は穏やか。\n**A（アセスメント）**\n【症状推移】\n安定。\n【リスク評価（自殺・他害・服薬）】\n低い。\n【背景要因】\n家族支援。\n【次回観察ポイント】\n服薬状況。\n**P（計画）**\n**【本日実施した援助】**\n傾聴。\n**【次回以降の方針】**\n継続。\n### 訪問看護計画書\n**長期目標：**\n自立。\n**短期目標：**\n安定維持。\n**看護援助の方針：**\n定期訪問。"

/-- Plain-format variant of refBold: the same content with the bold markup
removed from every heading, the markdown plan heading replaced by the bracket
form, and the plain plan-of-care headings. -/
def refPlain : String := "S（主観）\n気分は安定している。\nO（客観）\n表情は穏やか。\nA（アセスメント）\n【症状推移】\n安定。\n【リスク評価（自殺・他害・服薬）】\n低い。\n【背景要因】\n家族支援。\n【次回観察ポイント】\n服薬状況。\nP（計画）\n【本日実施した援助】\n傾聴。\n【次回以降の方針】\n継続。\n【看護計画書】\n長期目標：\n自立。\n短期目標：\n安定維持。\n看護援助の方針：\n定期訪問。"

/-- Full-format variant of a document whose subjective content itself
mentions the objective heading inline on its own line. -/
def c2bold : String := "**S（主観）**\n眠れている。\nO（客観）を確認。\n**O（客観）**\n穏やかである。"

/-- Plain-format variant of c2bold with the same content: the subjective
content still contains the inline objective-heading-like line. -/
def c2plain : String := "S（主観）\n眠れている。\nO（客観）を確認。\nO（客観）\n穏やかである。"

/-- refBold with the risk-evaluation sub-section (heading and content)
removed; every other section is unchanged. -/
def noRiskDoc : String := "**S（主観）**\n気分は安定している。\n**O（客観）**\n表情は穏やか。\n**A（アセスメント）**\n【症状推移】\n安定。\n【背景要因】\n家族支援。\n【次回観察ポイント】\n服薬状況。\n**P（計画）**\n**【本日実施した援助】**\n傾聴。\n**【次回以降の方針】**\n継続。\n### 訪問看護計画書\n**長期目標：**\n自立。\n**短期目標：**\n安定維持。\n**看護援助の方針：**\n定期訪問。"

/-- refBold with the symptom-progression sub-section (heading and content)
removed; every other section is unchanged. -/
def noSymDoc : String := "**S（主観）**\n気分は安定している。\n**O（客観）**\n表情は穏やか。\n**A（アセスメント）**\n【リスク評価（自殺・他害・服薬）】\n低い。\n【背景要因】\n家族支援。\n【次回観察ポイント】\n服薬状況。\n**P（計画）**\n**【本日実施した援助】**\n傾聴。\n**【次回以降の方針】**\n継続。\n### 訪問看護計画書\n**長期目標：**\n自立。\n**短期目標：**\n安定維持。\n**看護援助の方針：**\n定期訪問。"

/-- refBold with the background-factors sub-section (heading and content)
removed; every other section is unchanged. -/
def noBackDoc : String := "**S（主観）**\n気分は安定している。\n**O（客観）**\n表情は穏やか。\n**A（アセスメント）**\n【症状推移】\n安定。\n【リスク評価（自殺・他害・服薬）】\n低い。\n【次回観察ポイント】\n服薬状況。\n**P（計画）**\n**【本日実施した援助】**\n傾聴。\n**【次回以降の方針】**\n継続。\n### 訪問看護計画書\n**長期目標：**\n自立。\n**短期目標：**\n安定維持。\n**看護援助の方針：**\n定期訪問。"

/-- refBold with the next-observation-points sub-section (heading and content)
removed; every other section is unchanged. -/
def noNextDoc : String := "**S（主観）**\n気分は安定している。\n**O（客観）**\n表情は穏やか。\n**A（アセスメント）**\n【症状推移】\n安定。\n【リスク評価（自殺・他害・服薬）】\n低い。\n【背景要因】\n家族支援。\n**P（計画）**\n**【本日実施した援助】**\n傾聴。\n**【次回以降の方針】**\n継続。\n### 訪問看護計画書\n**長期目標：**\n自立。\n**短期目標：**\n安定維持。\n**看護援助の方針：**\n定期訪問。"

/-- An assessment-only document carrying all four sub-sections. -/
def c5full : String := "A（アセスメント）\n【症状推移】\n安定。\n【リスク評価（自殺・他害・服薬）】\n低い。\n【背景要因】\n家族支援。\n【次回観察ポイント】\n服薬状況。"

/-- c5full with only the risk-evaluation sub-heading line removed: the input
lacks exactly one assessment sub-heading while the content that stood under
it remains in place. -/
def c5noHead : String := "A（アセスメント）\n【症状推移】\n安定。\n低い。\n【背景要因】\n家族支援。\n【次回観察ポイント】\n服薬状況。"

set_option maxRecDepth 16000

/-- Exact substring occurrence test (the Python in operator). -/
def hasOccEx (m : List Char) : List Char → Bool
  | [] => startsWithEx m []
  | s@(_ :: t) => startsWithEx m s || hasOccEx m t

theorem splitOnFirst_eq_none {m s : List Char} (h : hasOccEx m s = false) :
    splitOnFirst m s = none := by
  induction s with
  | nil =>
    unfold hasOccEx at h
    unfold splitOnFirst
    simp [h]
  | cons c t ih =>
    unfold hasOccEx at h
    rw [Bool.or_eq_false_iff] at h
    unfold splitOnFirst
    simp [h.1, ih h.2]

theorem startsWithEx_nil {m : List Char} (h : startsWithEx m [] = true) : m = [] := by
  cases m with
  | nil => rfl
  | cons a as => simp [startsWithEx] at h

theorem startsWithEx_append {m : List Char} :
    ∀ {s : List Char}, startsWithEx m s = true → s = m ++ s.drop m.length := by
  induction m with
  | nil => intro s _; simp
  | cons a as ih =>
    intro s h
    cases s with
    | nil => simp [startsWithEx] at h
    | cons b bs =>
      unfold startsWithEx at h
      rw [Bool.and_eq_true] at h
      have h1 : a = b := by simpa using h.1.symm
      have h2 := ih h.2
      subst h1
      simpa using h2

theorem splitOnFirst_append {m : List Char} :
    ∀ {s a b : List Char}, splitOnFirst m s = some (a, b) → s = a ++ m ++ b := by
  intro s
  induction s with
  | nil =>
    intro a b h
    unfold splitOnFirst at h
    split at h
    next hs =>
      obtain rfl := startsWithEx_nil hs
      simp at h
      rw [h.1, h.2]
      rfl
    · simp at h
  | cons c t ih =>
    intro a b h
    unfold splitOnFirst at h
    split at h
    next hs =>
      have h0 := startsWithEx_append hs
      simp at h
      rw [h.1, ← h.2]
      simpa using h0
    next hs =>
      obtain ⟨⟨a', b'⟩, hsp, hpr⟩ := Option.map_eq_some'.mp h
      have h1 := ih hsp
      simp at hpr
      rw [← hpr.1, ← hpr.2]
      simp [h1]

theorem cleanedOf_of_empty {text : String} (h : text.data = []) : cleanedOf text = [] := by
  simp [cleanedOf, normalizeText, h, replCRLF, pyStrip, subVisit, subVisitF]

/-- Claim C6: when, after pre-cleaning, neither plan marker occurs, the whole
cleaned text is treated as SOAP-only: every care-plan field is the empty
string and the SOAP record is extracted from the entire cleaned text. -/
theorem c6_no_plan_marker (text : String)
    (h1 : hasOccEx marker1 (cleanedOf text) = false)
    (h2 : hasOccEx marker2 (cleanedOf text) = false) :
    (parse_soap_response text).soap = soapFrom (cleanedOf text) ∧
    (parse_soap_response text).plan = ⟨"", "", ""⟩ := by
  unfold parse_soap_response
  by_cases he : text.data = []
  · rw [cleanedOf_of_empty he]
    simp [he]
    constructor
    · decide
    · rfl
  · simp only [he, if_false]
    unfold splitSections
    rw [splitOnFirst_eq_none h1, splitOnFirst_eq_none h2]
    exact ⟨rfl, rfl⟩

/-- Claim C6, witness: the boundary-correctness document has no plan marker;
its care-plan record is fully empty while its SOAP fields are extracted from
the whole text. -/
theorem c6_witness :
    (parse_soap_response c4doc).soap = soapFrom (cleanedOf c4doc) ∧
    (parse_soap_response c4doc).plan = ⟨"", "", ""⟩ :=
  c6_no_plan_marker c4doc (by decide) (by decide)

/-- Input in which the bracket plan marker occurs before the markdown plan
marker. -/
def c7doc : String := "S（主観）\n普通。\n【看護計画書】\n長期目標：\n甲\n### 訪問看護計画書\n長期目標：\n乙"

/-- The SOAP half of c7doc when split at the markdown marker (it still
contains the earlier bracket marker). -/
def c7a : String := "S（主観）\n普通。\n【看護計画書】\n長期目標：\n甲\n"

/-- The plan half of c7doc when split at the markdown marker. -/
def c7b : String := "\n長期目標：\n乙"

/-- Claim C7: whenever the cleaned text contains the markdown plan marker,
the split happens at its first occurrence, the text before it being the SOAP
half and the text after it the plan half, regardless of the bracket marker. -/
theorem c7_marker_priority (text : String) (a b : List Char)
    (h : splitOnFirst marker1 (cleanedOf text) = some (a, b)) :
    parse_soap_response text = ⟨soapFrom (pyStrip a), planFrom (pyStrip b)⟩ ∧
    cleanedOf text = a ++ marker1 ++ b := by
  refine ⟨?_, splitOnFirst_append h⟩
  unfold parse_soap_response
  by_cases he : text.data = []
  · rw [cleanedOf_of_empty he] at h
    rw [show splitOnFirst marker1 [] = none from by decide] at h
    exact absurd h (by simp)
  · simp only [he, if_false]
    unfold splitSections
    rw [h]

/-- Claim C7, witness: in c7doc the bracket marker occurs earlier than the
markdown marker, yet the parse splits at the markdown marker: the bracket
marker is left inside the SOAP half and the plan is extracted after the
markdown marker. -/
theorem c7_witness :
    parse_soap_response c7doc = ⟨soapFrom (pyStrip c7a.data), planFrom (pyStrip c7b.data)⟩ ∧
    cleanedOf c7doc = c7a.data ++ marker1 ++ c7b.data ∧
    hasOccEx marker2 c7a.data = true ∧
    (parse_soap_response c7doc).plan.longTermGoal = "乙" :=
  ⟨(c7_marker_priority c7doc c7a.data c7b.data (by decide)).1,
   (c7_marker_priority c7doc c7a.data c7b.data (by decide)).2,
   by decide, by decide⟩

/-- Claim C1: for every input string the parser returns, without any error
channel, a SOAP record with exactly the keys s, o, the four assessment
sub-fields and the two plan-of-care sub-fields, and a care-plan record with
its three keys, every value a string (witnessed by the record types of the
embedding, which carry exactly those string fields); and for the empty input
every value is the empty string. -/
theorem c1_totality_and_empty_default :
    (∀ text : String, ∃ s o a1 a2 a3 a4 p1 p2 g1 g2 g3 : String,
      parse_soap_response text = ⟨⟨s, o, ⟨a1, a2, a3, a4⟩, ⟨p1, p2⟩⟩, ⟨g1, g2, g3⟩⟩) ∧
    parse_soap_response "" = ⟨⟨"", "", ⟨"", "", "", ""⟩, ⟨"", ""⟩⟩, ⟨"", "", ""⟩⟩ :=
  ⟨fun _ => ⟨_, _, _, _, _, _, _, _, _, _, _, rfl⟩, rfl⟩

/-- Claim C4: the concrete boundary-correctness input yields subjective and
objective values exactly as specified, with no leakage between the fields. -/
theorem c4_boundary_correctness :
    (parse_soap_response c4doc).soap.s = "患者は落ち着いている。" ∧
    (parse_soap_response c4doc).soap.o = "表情は穏やか。" := by decide

/-- Claim C2, counterexample: the claim quantifies over any clinical content,
but when the content itself contains a line resembling the plain objective
heading, the full-format variant and the plain-format variant of the same
content extract different subjective values: the plain pattern's lookahead
stops at the inline heading-like line while the bold pattern's lookahead
requires bold markup and skips it. -/
theorem c2_counterexample :
    (parse_soap_response c2bold).soap.s = "眠れている。\nO（客観）を確認。" ∧
    (parse_soap_response c2plain).soap.s = "眠れている。" ∧
    (parse_soap_response c2bold).soap.s ≠ (parse_soap_response c2plain).soap.s := by decide

/-- Claim C2, amended: for the reference full-format example and the
plain-format variant of the same content (content whose lines do not
themselves resemble section headings), the two parses agree on every field of
both records, and extract the actual content values. -/
theorem c2_reference_reformatting :
    parse_soap_response refBold = parse_soap_response refPlain ∧
    (parse_soap_response refBold).soap.s = "気分は安定している。" ∧
    (parse_soap_response refBold).soap.a.symptomProgression = "安定。" ∧
    (parse_soap_response refBold).soap.p.todayInterventions = "傾聴。" ∧
    (parse_soap_response refBold).plan.longTermGoal = "自立。" := by decide

/-- Claim C5, counterexample: the claim quantifies over every input lacking
exactly one assessment sub-heading, but it fails when only the heading line
is removed and the content that stood under it stays: c5noHead lacks the
risk-evaluation sub-heading (the other three sub-headings occur), the missing
sub-field is the empty string, yet the sibling symptom-progression sub-field
absorbs the orphaned content and its value changes from the value it has in
c5full, where the sub-heading is present. -/
theorem c5_counterexample :
    hasOccEx "【リスク評価".data c5noHead.data = false ∧
    hasOccEx "【症状推移】".data c5noHead.data = true ∧
    hasOccEx "【背景要因】".data c5noHead.data = true ∧
    hasOccEx "【次回観察ポイント】".data c5noHead.data = true ∧
    (parse_soap_response c5noHead).soap.a.riskAssessment = "" ∧
    (parse_soap_response c5full).soap.a.symptomProgression = "安定。" ∧
    (parse_soap_response c5noHead).soap.a.symptomProgression = "安定。\n低い。" ∧
    (parse_soap_response c5noHead).soap.a.symptomProgression ≠
      (parse_soap_response c5full).soap.a.symptomProgression := by decide

/-- Claim C5, amended: for the reference document with any one of its four
assessment sub-sections removed (heading and content together), the other
three assessment sub-fields keep exactly the values of the full reference
document, and the missing sub-field is the empty string rather than a parse
abort. -/
theorem c5_section_removal :
    (parse_soap_response refBold).soap.a =
      ⟨"安定。", "低い。", "家族支援。", "服薬状況。"⟩ ∧
    (parse_soap_response noSymDoc).soap.a =
      ⟨"", "低い。", "家族支援。", "服薬状況。"⟩ ∧
    (parse_soap_response noRiskDoc).soap.a =
      ⟨"安定。", "", "家族支援。", "服薬状況。"⟩ ∧
    (parse_soap_response noBackDoc).soap.a =
      ⟨"安定。", "低い。", "", "服薬状況。"⟩ ∧
    (parse_soap_response noNextDoc).soap.a =
      ⟨"安定。", "低い。", "家族支援。", ""⟩ := by decide

/-! Embedding of the generate endpoint (generate_note of
src/backend/api/routers/generation.py). The collaborating services are pure
inputs: the patient lookup, the prompt builder, the AI call and the database
save are each an Except value describing the outcome the service would
produce, and the endpoint is the deterministic control flow of the handler
over those outcomes. -/

/-- Python str.strip on a string value. -/
def stripStr (s : String) : String := ⟨pyStrip s.data⟩

/-- The request body of the generate endpoint (GenerateRequest of models.py,
restricted to the fields the handler reads). -/
structure GenRequest where
  patient_id : Option String
  userName : String
  diagnosis : String
  nurses : List String
  visitDate : String
  startTime : String
  endTime : String
  chiefComplaint : String
  sText : String
  oText : String

/-- The patient row returned by the database lookup: the name and the
optional primary diagnosis. -/
structure PatientData where
  name : String
  primary_diagnosis : Option String

/-- An HTTP error response raised by the handler. -/
structure HTTPError where
  status : Nat
  detail : String
deriving DecidableEq

/-- The tail of the handler after a successful AI generation: the output is
parsed into the structured records, the save is attempted, a
DatabaseServiceError is logged and swallowed, and the raw output is returned
in both cases. -/
def savePhase (output : String) (saveRes : Except String Unit) : Except HTTPError String :=
  let _parsed := parse_soap_response output
  match saveRes with
  | .ok _ => .ok output
  | .error _ => .ok output

theorem savePhase_const (output : String) (saveRes : Except String Unit) :
    savePhase output saveRes = .ok output := by
  cases saveRes <;> rfl

/-- The generate endpoint. patientFetch is the outcome the database lookup
would produce (consulted only when patient_id is present), promptRes the
outcome of build_prompt (a ValueError message on failure), aiRes the outcome
of the AI call, saveRes the outcome of save_soap_record. -/
def generate_note (req : GenRequest) (patientFetch : Except String PatientData)
    (promptRes : Except String String) (aiRes : Except String String)
    (saveRes : Except String Unit) : Except HTTPError String :=
  let pn0 := stripStr req.userName
  let dg0 := stripStr req.diagnosis
  let step1 : Except HTTPError (String × String) :=
    match req.patient_id with
    | some pid =>
      match patientFetch with
      | .error _ =>
        .error ⟨404, "指定された利用者（ID: " ++ pid ++ "）が見つかりませんでした。"⟩
      | .ok pd =>
        .ok (pd.name,
          match pd.primary_diagnosis with
          | some d => if d = "" then dg0 else d
          | none => dg0)
    | none =>
      if pn0 = "" then .error ⟨400, "利用者名は必須です（patient_idが指定されていない場合）。"⟩
      else if dg0 = "" then .error ⟨400, "主疾患は必須です（patient_idが指定されていない場合）。"⟩
      else .ok (pn0, dg0)
  match step1 with
  | .error e => .error e
  | .ok _names =>
    if stripStr req.visitDate = "" then .error ⟨400, "訪問日は必須です。"⟩
    else if stripStr req.startTime = "" || stripStr req.endTime = "" then
      .error ⟨400, "訪問時間（開始・終了）は必須です。"⟩
    else if stripStr req.sText = "" && stripStr req.oText = "" then
      .error ⟨400, "SまたはOのいずれか一方は必須です。"⟩
    else
      match promptRes with
      | .error msg => .error ⟨400, "日付形式が不正です: " ++ msg⟩
      | .ok _prompt =>
        match aiRes with
        | .error _ => .error ⟨502, "AI生成中にエラーが発生しました。"⟩
        | .ok output => savePhase output saveRes

/-- Claim C8: when the AI call succeeds but the database save fails with a
DatabaseServiceError, the failure is not surfaced: the endpoint returns the
raw generated text exactly as it would with a successful save, and produces
no error status for the persistence failure. -/
theorem c8_persistence_failure (req : GenRequest) (pf : Except String PatientData)
    (pr : Except String String) (out e : String)
    (h : generate_note req pf pr (.ok out) (.ok ()) = .ok out) :
    generate_note req pf pr (.ok out) (.error e) = .ok out ∧
    generate_note req pf pr (.ok out) (.error e) =
      generate_note req pf pr (.ok out) (.ok ()) := by
  have hsame : generate_note req pf pr (.ok out) (.error e) =
      generate_note req pf pr (.ok out) (.ok ()) := by
    unfold generate_note
    simp only [savePhase_const]
  exact ⟨hsame.trans h, hsame⟩

/-- A concrete valid request without patient_id. -/
def c8req : GenRequest :=
  ⟨none, "山田太郎", "統合失調症", ["佐藤"], "2025-01-01", "10:00", "11:00", "不眠",
   "眠れない", "落ち着いている"⟩

/-- Claim C8, witness: on a concrete valid request whose AI call succeeded
and whose save fails, the endpoint still returns the generated text. -/
theorem c8_witness :
    generate_note c8req (.ok ⟨"未使用", none⟩) (.ok "プロンプト") (.ok "生成された記録")
      (.error "db unavailable") = .ok "生成された記録" :=
  (c8_persistence_failure c8req (.ok ⟨"未使用", none⟩) (.ok "プロンプト") "生成された記録"
    "db unavailable" (by rfl)).1

/-! Claim C9: the risk-evaluation pattern demands the parenthesised
qualifier. We characterise where the pattern can match at all: any successful
match starts with the qualified heading text. -/

/-- The qualified risk heading starts at the head of s: the bracketed risk
label, an opening parenthesis, then the qualifier text. -/
def riskHeadAt (s : List Char) : Bool :=
  ciStarts "【リスク評価".data s &&
    match s.drop 6 with
    | c :: t => (c == '（' || c == '(') && ciStarts "自殺・他害・服薬".data t
    | [] => false

/-- The qualified risk heading occurs somewhere in s. -/
def hasRiskHead : List Char → Bool
  | [] => riskHeadAt []
  | s@(_ :: t) => riskHeadAt s || hasRiskHead t

theorem countRange_bounds {lo r n : Nat} {greedy : Bool}
    (h : n ∈ countRange lo r greedy) : lo ≤ n ∧ n ≤ r := by
  unfold countRange at h
  have h2 : n ∈ (List.range (r + 1 - lo)).map (fun i => lo + i) := by
    by_cases hg : greedy
    · simpa [hg] using h
    · simpa [hg] using h
  obtain ⟨i, hi, rfl⟩ := List.mem_map.mp h2
  have := List.mem_range.mp hi
  omega

theorem runLen_pos_head {p : Char → Bool} {u : List Char} (h : 1 ≤ runLen p u) :
    ∃ c t, u = c :: t ∧ p c = true := by
  cases u with
  | nil => simp [runLen] at h
  | cons c t =>
    refine ⟨c, t, rfl, ?_⟩
    by_contra hc
    have hc2 : p c = false := by
      cases hpc : p c
      · rfl
      · exact absurd hpc hc
    simp [runLen, hc2] at h

theorem matchFieldAt_risk {s cap : List Char} (h : matchFieldAt riskPat s = some cap) :
    riskHeadAt s = true := by
  unfold matchFieldAt riskPat at h
  simp only [lit, parenO, parenCOpt, wsStar, nlPlus] at h
  rw [toksMatch] at h
  split at h
  next hstart =>
    rw [toksMatch] at h
    obtain ⟨n, hn, hmat⟩ := findSome?_some h
    obtain ⟨hlo, hhi⟩ := countRange_bounds hn
    have hr1 : 1 ≤ min 1 (runLen (fun c => c == '（' || c == '(') (s.drop 6)) := le_trans hlo hhi
    have hrun : 1 ≤ runLen (fun c => c == '（' || c == '(') (s.drop 6) := by
      rcases Nat.le_min.mp hr1 with ⟨_, h2⟩; exact h2
    obtain ⟨c0, t0, hu, hp⟩ := runLen_pos_head hrun
    obtain rfl : n = 1 := by omega
    rw [toksMatch] at hmat
    split at hmat
    next hstart2 =>
      unfold riskHeadAt
      have hstart' : ciStarts "【リスク評価".data s = true := hstart
      have hstart2' : ciStarts "自殺・他害・服薬".data (List.drop 1 (List.drop 6 s)) = true :=
        hstart2
      rw [hu] at hstart2'
      simp only [List.drop_succ_cons, List.drop_zero] at hstart2'
      rw [hstart', hu]
      simp [hp, hstart2']
    · simp at hmat
  · simp at h

theorem searchField_risk {cap : List Char} :
    ∀ {s : List Char}, searchField riskPat s = some cap → hasRiskHead s = true := by
  intro s
  induction s with
  | nil =>
    intro h
    unfold searchField at h
    unfold hasRiskHead
    exact matchFieldAt_risk h
  | cons c t ih =>
    intro h
    unfold searchField at h
    unfold hasRiskHead
    split at h
    next _ hm => rw [matchFieldAt_risk hm]; simp
    next _ _ => rw [ih h]; simp

/-- The assessment content of an input: the raw capture of the assessment
block patterns over the SOAP half. -/
def aContentOf (text : String) : List Char :=
  rawCap (fieldVal aPats (splitSections (cleanedOf text)).1)

/-- Claim C9: when the assessment content contains a bare risk-evaluation
heading but nowhere the qualified heading (the bracketed risk label followed
by an opening parenthesis and the qualifier), the risk field of the output is
the empty string while the sibling sub-fields are extracted normally from
the same assessment content. -/
theorem c9_risk_qualifier (text : String)
    (hbare : hasOccEx "【リスク評価】".data (aContentOf text) = true)
    (hqual : hasRiskHead (aContentOf text) = false) :
    (parse_soap_response text).soap.a.riskAssessment = "" ∧
    (parse_soap_response text).soap.a.symptomProgression =
      stripVal (searchField symPat (aContentOf text)) ∧
    (parse_soap_response text).soap.a.backgroundFactors =
      stripVal (searchField backPat (aContentOf text)) ∧
    (parse_soap_response text).soap.a.nextObservationPoints =
      stripVal (searchField nextPat (aContentOf text)) := by
  have hs : searchField riskPat (aContentOf text) = none := by
    cases hsr : searchField riskPat (aContentOf text) with
    | none => rfl
    | some cap => rw [searchField_risk hsr] at hqual; exact absurd hqual (by simp)
  have hne : aContentOf text ≠ [] := by
    intro h0
    rw [h0] at hbare
    exact absurd hbare (by decide)
  unfold parse_soap_response
  by_cases he : text.data = []
  · exfalso
    apply hne
    unfold aContentOf
    rw [cleanedOf_of_empty he]
    rfl
  · simp only [he, if_false]
    show (soapFrom (splitSections (cleanedOf text)).1).a.riskAssessment = "" ∧ _
    unfold soapFrom
    have hne2 : (rawCap (fieldVal aPats (splitSections (cleanedOf text)).1)).isEmpty = false := by
      cases hx : rawCap (fieldVal aPats (splitSections (cleanedOf text)).1) with
      | nil => exact absurd hx hne
      | cons a t => rfl
    simp only [hne2, Bool.false_eq_true, if_false]
    refine ⟨?_, rfl, rfl, rfl⟩
    show stripVal (searchField riskPat (aContentOf text)) = ""
    rw [hs]
    rfl

/-- Assessment section whose risk heading lacks the qualifier. -/
def c9doc : String := "A（アセスメント）\n【症状推移】\n安定。\n【リスク評価】\n低い。\n【背景要因】\n家族支援。"

/-- Claim C9, witness: a document with a bare risk heading gets an empty risk
field while its sibling assessment sub-fields are extracted. -/
theorem c9_witness :
    (parse_soap_response c9doc).soap.a.riskAssessment = "" ∧
    (parse_soap_response c9doc).soap.a.symptomProgression =
      stripVal (searchField symPat (aContentOf c9doc)) ∧
    (parse_soap_response c9doc).soap.a.symptomProgression = "安定。" ∧
    (parse_soap_response c9doc).soap.a.backgroundFactors = "家族支援。" := by
  have h := c9_risk_qualifier c9doc (by decide) (by decide)
  exact ⟨h.1, h.2.1, by decide, by decide⟩

/-! Claim C10. Part one: every assigned value is the result of str.strip, so
it is a fixed point of the strip; we prove strip idempotent. Part two: the
captured text of a plan-of-care sub-field can never retain a trailing
separator line, because the capture's lookahead stops at any newline
followed by three dashes. -/

theorem head?_dropWhile {p : Char → Bool} :
    ∀ {l : List Char} {c : Char}, (List.dropWhile p l).head? = some c → p c = false := by
  intro l
  induction l with
  | nil => intro c h; simp at h
  | cons a t ih =>
    intro c h
    rw [List.dropWhile_cons] at h
    split at h
    · exact ih h
    next hpa =>
      simp at h
      rw [← h]
      cases hb : p a
      · rfl
      · exact absurd hb hpa

theorem dropWhile_dropWhile {p : Char → Bool} (l : List Char) :
    List.dropWhile p (List.dropWhile p l) = List.dropWhile p l := by
  cases hd : List.dropWhile p l with
  | nil => rfl
  | cons a t =>
    have ha : p a = false := head?_dropWhile (l := l) (by rw [hd]; rfl)
    rw [List.dropWhile_cons, ha]
    simp

theorem pyStrip_rev_eq (l : List Char) :
    (pyStrip l).reverse = List.dropWhile isWs ((List.dropWhile isWs l).reverse) := by
  unfold pyStrip
  rw [List.reverse_reverse]

theorem pyStrip_pre (l : List Char) : pyStrip l <+: List.dropWhile isWs l := by
  rw [← List.reverse_suffix, pyStrip_rev_eq]
  exact List.dropWhile_suffix _

theorem pre_head? {z u : List Char} (h : z <+: u) (hz : z ≠ []) : u.head? = z.head? := by
  obtain ⟨e, rfl⟩ := h
  cases z with
  | nil => exact absurd rfl hz
  | cons a t => rfl

theorem pyStrip_head_not_ws {l : List Char} {c : Char}
    (h : (pyStrip l).head? = some c) : isWs c = false := by
  have hz : pyStrip l ≠ [] := by intro h0; rw [h0] at h; simp at h
  have h2 := pre_head? (pyStrip_pre l) hz
  exact head?_dropWhile (h2.trans h)

theorem dropWhile_pyStrip (l : List Char) :
    List.dropWhile isWs (pyStrip l) = pyStrip l := by
  cases hz : pyStrip l with
  | nil => rfl
  | cons a t =>
    have ha : isWs a = false := pyStrip_head_not_ws (l := l) (by rw [hz]; rfl)
    rw [List.dropWhile_cons, ha]
    simp

theorem pyStrip_idem (l : List Char) : pyStrip (pyStrip l) = pyStrip l := by
  have h1 : pyStrip (pyStrip l) = ((pyStrip l).reverse.dropWhile isWs).reverse := by
    show ((List.dropWhile isWs (pyStrip l)).reverse.dropWhile isWs).reverse = _
    rw [dropWhile_pyStrip]
  rw [h1, pyStrip_rev_eq, dropWhile_dropWhile]
  have h2 := congrArg List.reverse (pyStrip_rev_eq l)
  rw [List.reverse_reverse] at h2
  exact h2.symm

/-- A string value is trimmed: stripping it changes nothing, so it has no
leading or trailing whitespace. -/
def trimmed (s : String) : Prop := pyStrip s.data = s.data

theorem trimmed_stripVal (o : Option (List Char)) : trimmed (stripVal o) := by
  cases o with
  | none => rfl
  | some c => exact pyStrip_idem c

theorem trimmed_pVal (o : Option (List Char)) : trimmed (pVal o) := by
  cases o with
  | none => rfl
  | some c => exact pyStrip_idem _

/-- The trailing-separator shape at the head of a list: a newline, a run of
whitespace, three dashes. A capture boundary where this shape starts is
exactly a position where the separator lookahead alternative matches. -/
def dashSubAt (u : List Char) : Prop :=
  ∃ w v, u = '\n' :: (w ++ '-' :: '-' :: '-' :: v) ∧ ∀ c ∈ w, isWs c = true

theorem dashSubAt_ne_nil {u : List Char} (h : dashSubAt u) : u ≠ [] := by
  obtain ⟨w, v, hu, _⟩ := h
  rw [hu]
  simp

theorem runLen_ge {p : Char → Bool} :
    ∀ {w : List Char}, (∀ c ∈ w, p c = true) → ∀ v, w.length ≤ runLen p (w ++ v) := by
  intro w
  induction w with
  | nil => intro _ v; simp
  | cons a t ih =>
    intro h v
    have ha : p a = true := h a (by simp)
    show t.length + 1 ≤ runLen p (a :: (t ++ v))
    unfold runLen
    rw [ha]
    simp only [if_true]
    have := ih (fun c hc => h c (by simp [hc])) v
    omega

theorem take_all_of_runLen {p : Char → Bool} :
    ∀ {n : Nat} {l : List Char}, n ≤ runLen p l → ∀ c ∈ l.take n, p c = true := by
  intro n
  induction n with
  | zero => intro l _ c hc; simp at hc
  | succ m ih =>
    intro l h c hc
    cases l with
    | nil => simp at hc
    | cons a t =>
      unfold runLen at h
      by_cases hpa : p a = true
      · rw [hpa] at h
        simp only [if_true] at h
        rw [List.take_succ_cons] at hc
        rcases List.mem_cons.mp hc with rfl | hc2
        · exact hpa
        · exact ih (by omega) c hc2
      · have hfa : p a = false := Bool.eq_false_iff.mpr hpa
        rw [hfa] at h
        simp at h

theorem findSome?_isSome_of {α β : Type} {f : α → Option β} {l : List α} {a : α}
    (ha : a ∈ l) (hf : (f a).isSome = true) : (l.findSome? f).isSome = true := by
  induction l with
  | nil => simp at ha
  | cons b bs ih =>
    rw [List.findSome?_cons]
    cases hfb : f b with
    | some v => simp
    | none =>
      rcases List.mem_cons.mp ha with rfl | ha2
      · rw [hfb] at hf; simp at hf
      · exact ih ha2

theorem mem_countRange {lo r n : Nat} (h1 : lo ≤ n) (h2 : n ≤ r) (greedy : Bool) :
    n ∈ countRange lo r greedy := by
  unfold countRange
  have hb : n ∈ (List.range (r + 1 - lo)).map (fun i => lo + i) := by
    rw [List.mem_map]
    exact ⟨n - lo, List.mem_range.mpr (by omega), by omega⟩
  by_cases hg : greedy
  · simp [hg, List.mem_reverse, hb]
  · simp [hg, hb]

/-- The trailing-separator alternative matches wherever the separator shape
starts, also when the text continues beyond it. -/
theorem dashAlt_matches {w v : List Char} (hw : ∀ c ∈ w, isWs c = true) :
    (toksMatch dashAlt ('\n' :: (w ++ '-' :: '-' :: '-' :: v)) fun _ =>
      some ()).isSome = true := by
  unfold dashAlt lit wsStar
  rw [toksMatch]
  have hst : ciStarts "\n".data ('\n' :: (w ++ '-' :: '-' :: '-' :: v)) = true := by
    show (ciEq '\n' '\n' && true) = true
    decide
  rw [if_pos hst]
  rw [toksMatch]
  have hdrop1 : List.drop ("\n".data.length) ('\n' :: (w ++ '-' :: '-' :: '-' :: v)) =
      w ++ '-' :: '-' :: '-' :: v := rfl
  rw [hdrop1]
  apply findSome?_isSome_of (a := w.length)
  · exact mem_countRange (by omega) (runLen_ge hw _) true
  · rw [toksMatch]
    have hdw : List.drop w.length (w ++ '-' :: '-' :: '-' :: v) = '-' :: '-' :: '-' :: v :=
      List.drop_left w _
    rw [hdw]
    have hst2 : ciStarts "---".data ('-' :: '-' :: '-' :: v) = true := by
      show (ciEq '-' '-' && (ciEq '-' '-' && (ciEq '-' '-' && true))) = true
      decide
    rw [if_pos hst2]
    rfl

/-- If the separator shape starts at the head of u, the lookahead alternation
of any pattern list containing the separator alternative matches at u. -/
theorem lookAny_of_dashSubAt {look : List (List Tok)} {u rest : List Char}
    (hmem : dashAlt ∈ look) (h : dashSubAt u) : lookAny look (u ++ rest) = true := by
  obtain ⟨w, v, hu, hw⟩ := h
  unfold lookAny
  rw [List.any_eq_true]
  refine ⟨dashAlt, hmem, ?_⟩
  have : u ++ rest = '\n' :: (w ++ '-' :: '-' :: '-' :: (v ++ rest)) := by
    rw [hu]
    simp
  rw [this]
  exact dashAlt_matches hw

/-- A successful trailing-separator substitution match means the separator
shape starts at the head of the text. -/
theorem dashMatchAt_shape {u r : List Char} (h : dashMatchAt u = some r) : dashSubAt u := by
  unfold dashMatchAt dashToks at h
  rw [toksMatch] at h
  split at h
  next hst =>
    rw [ciStarts_caseless (by decide) u] at hst
    have hu := startsWithEx_append hst
    rw [toksMatch] at h
    obtain ⟨n, hn, h2⟩ := findSome?_some h
    obtain ⟨_, hhi⟩ := countRange_bounds hn
    rw [toksMatch] at h2
    split at h2
    next hst2 =>
      rw [ciStarts_caseless (by decide) _] at hst2
      have h3 := startsWithEx_append hst2
      refine ⟨(u.drop 1).take n, ((u.drop 1).drop n).drop 3, ?_, ?_⟩
      · have h4 : u.drop 1 = (u.drop 1).take n ++ (u.drop 1).drop n :=
          (List.take_append_drop n (u.drop 1)).symm
        have h5 : (u.drop 1).drop n =
            '-' :: '-' :: '-' :: ((u.drop 1).drop n).drop 3 := by
          have := h3
          simpa using this
        calc u = "\n".data ++ u.drop 1 := by simpa using hu
        _ = '\n' :: ((u.drop 1).take n ++ (u.drop 1).drop n) := by rw [← h4]; rfl
        _ = '\n' :: ((u.drop 1).take n ++ ('-' :: '-' :: '-' :: ((u.drop 1).drop n).drop 3)) := by
              rw [← h5]
      · intro c hc
        exact take_all_of_runLen (by simpa using hhi) c hc
    · simp at h2
  · simp at h

/-- Full specification of the lazy-capture stage: the capture appends the
consumed prefix d to the accumulator, the lookahead test failed at every
boundary strictly inside d (where the minimum had already been consumed), and
the stop position is where the test first succeeded. -/
theorem capStop_spec {look : List (List Tok)} :
    ∀ {s : List Char} {need : Nat} {acc cap rest : List Char},
    capStop look need acc s = some (cap, rest) →
    ∃ d, s = d ++ rest ∧ cap = acc.reverse ++ d ∧
      (∀ j < d.length, ¬(need - j = 0 ∧ lookAny look (d.drop j ++ rest) = true)) ∧
      (need - d.length = 0 ∧ lookAny look rest = true) := by
  intro s
  induction s with
  | nil =>
    intro need acc cap rest h
    unfold capStop at h
    split at h
    next hcond =>
      rw [Option.some.injEq, Prod.mk.injEq] at h
      obtain ⟨hcap, hrest⟩ := h
      rw [Bool.and_eq_true, beq_iff_eq] at hcond
      subst hcap
      subst hrest
      exact ⟨[], by simp, by simp, by simp, ⟨by simpa using hcond.1, hcond.2⟩⟩
    · simp at h
  | cons c t ih =>
    intro need acc cap rest h
    unfold capStop at h
    split at h
    next hcond =>
      rw [Option.some.injEq, Prod.mk.injEq] at h
      obtain ⟨hcap, hrest⟩ := h
      rw [Bool.and_eq_true, beq_iff_eq] at hcond
      subst hcap
      subst hrest
      exact ⟨[], by simp, by simp, by simp, ⟨by simpa using hcond.1, hcond.2⟩⟩
    next hcond =>
      obtain ⟨d', ht, hcap, hint, hfin⟩ := ih h
      refine ⟨c :: d', by simp [ht], by simp [hcap], ?_, ?_⟩
      · intro j hj
        cases j with
        | zero =>
          intro ⟨hneed, hlook⟩
          apply hcond
          rw [Bool.and_eq_true, beq_iff_eq]
          simp only [Nat.sub_zero] at hneed
          refine ⟨hneed, ?_⟩
          simpa [← ht] using hlook
        | succ j' =>
          intro ⟨hneed, hlook⟩
          refine hint j' (by simpa using hj) ⟨by omega, ?_⟩
          simpa using hlook
      · refine ⟨by have := hfin.1; simp; omega, hfin.2⟩

theorem searchField_matchAt {fp : FieldPat} {cap : List Char} :
    ∀ {s : List Char}, searchField fp s = some cap →
    ∃ u, matchFieldAt fp u = some cap := by
  intro s
  induction s with
  | nil => intro h; exact ⟨[], h⟩
  | cons c t ih =>
    intro h
    unfold searchField at h
    split at h
    next c0 heq => exact ⟨c :: t, by rw [heq, h]⟩
    next _ => exact ih h

theorem matchFieldAt_capStop {fp : FieldPat} {u cap : List Char}
    (h : matchFieldAt fp u = some cap) :
    ∃ r rest, capStop fp.look fp.minCap [] r = some (cap, rest) := by
  unfold matchFieldAt at h
  obtain ⟨r, _, hk⟩ := toksMatch_some _ _ _ _ h
  obtain ⟨⟨cap0, rest⟩, hc, hpr⟩ := Option.map_eq_some'.mp hk
  simp at hpr
  subst hpr
  exact ⟨r, rest, hc⟩

/-- Inside a capture produced with minimum length one and a lookahead
containing the separator alternative, the separator shape never starts at a
boundary after the first captured character. -/
theorem cap_interior {look : List (List Tok)} {r cap rest : List Char}
    (hmem : dashAlt ∈ look) (h : capStop look 1 [] r = some (cap, rest)) :
    ∀ i, 1 ≤ i → ¬ dashSubAt (cap.drop i) := by
  obtain ⟨d, _, hcap, hint, _⟩ := capStop_spec h
  simp at hcap
  subst hcap
  intro i hi hsub
  by_cases hlen : i < cap.length
  · exact (hint i hlen) ⟨by omega, lookAny_of_dashSubAt hmem hsub⟩
  · rw [List.drop_eq_nil_of_le (by omega)] at hsub
    exact dashSubAt_ne_nil hsub rfl

theorem dashSubAt_append {x e : List Char} (h : dashSubAt x) : dashSubAt (x ++ e) := by
  obtain ⟨w, v, hx, hw⟩ := h
  exact ⟨w, v ++ e, by rw [hx]; simp, hw⟩

/-- Stripping preserves the absence of interior separator shapes, and the
strip's removal of leading whitespace also rules the shape out at the very
first position. -/
theorem transfer_strip {cap : List Char}
    (h : ∀ i, 1 ≤ i → ¬ dashSubAt (cap.drop i)) :
    ∀ j, ¬ dashSubAt ((pyStrip cap).drop j) := by
  intro j hsub
  rcases Nat.eq_zero_or_pos j with rfl | hj
  · simp at hsub
    obtain ⟨w, v, hz, _⟩ := hsub
    have hhead : (pyStrip cap).head? = some '\n' := by rw [hz]; rfl
    have := pyStrip_head_not_ws hhead
    simp [isWs] at this
  · by_cases hlen : j < (pyStrip cap).length
    · obtain ⟨e, he⟩ := pyStrip_pre cap
      obtain ⟨pre, hp⟩ := List.dropWhile_suffix (l := cap) isWs
      have h1 : (List.dropWhile isWs cap).drop j = (pyStrip cap).drop j ++ e := by
        rw [← he, List.drop_append_of_le_length (by omega)]
      have h2 : cap.drop (pre.length + j) = (List.dropWhile isWs cap).drop j := by
        have h2a : (pre ++ List.dropWhile isWs cap).drop (pre.length + j) =
            (List.dropWhile isWs cap).drop j := List.drop_append j
        rw [hp] at h2a
        exact h2a
      have h3 : dashSubAt (cap.drop (pre.length + j)) := by
        rw [h2, h1]
        exact dashSubAt_append hsub
      exact h (pre.length + j) (by omega) h3
    · rw [List.drop_eq_nil_of_le (by omega)] at hsub
      exact dashSubAt_ne_nil hsub rfl

theorem suffix_no_dashMatch {z : List Char}
    (h : ∀ j, ¬ dashSubAt (z.drop j)) :
    ∀ u, u <:+ z → dashMatchAt u = none := by
  intro u hsuf
  cases hm : dashMatchAt u with
  | none => rfl
  | some r =>
    exfalso
    have he := List.suffix_iff_eq_drop.mp hsuf
    rw [he] at hm
    exact h _ (dashMatchAt_shape hm)

theorem subDashesF_id :
    ∀ (fuel : Nat) {z : List Char}, (∀ u, u <:+ z → dashMatchAt u = none) →
    subDashesF fuel z = z := by
  intro fuel
  induction fuel with
  | zero => intro z _; rfl
  | succ n ih =>
    intro z h
    cases z with
    | nil => rfl
    | cons c t =>
      show (match dashMatchAt (c :: t) with
        | some rest => subDashesF n rest
        | none => c :: subDashesF n t) = c :: t
      rw [h (c :: t) (List.suffix_refl _)]
      rw [ih (fun u hu => h u (hu.trans (List.suffix_cons c t)))]

theorem subDashes_id {z : List Char} (h : ∀ u, u <:+ z → dashMatchAt u = none) :
    subDashes z = z := subDashesF_id _ h

/-- The scan of the trailing-separator pattern over all start positions,
mirroring re.search of the removal pattern: some means a trailing separator
line is present. -/
def dashSearch : List Char → Option (List Char)
  | [] => dashMatchAt []
  | s@(_ :: t) =>
    match dashMatchAt s with
    | some r => some r
    | none => dashSearch t

theorem dashSearch_none {z : List Char}
    (h : ∀ u, u <:+ z → dashMatchAt u = none) : dashSearch z = none := by
  induction z with
  | nil => exact h [] (List.suffix_refl _)
  | cons c t ih =>
    unfold dashSearch
    rw [h (c :: t) (List.suffix_refl _)]
    exact ih (fun u hu => h u (hu.trans (List.suffix_cons c t)))

/-- A plan-of-care sub-field value extracted by a pattern with minimum
capture one and the separator alternative in its lookahead never contains a
trailing separator line: the capture cannot contain the shape beyond its
first character, stripping removes it from the first position, and the
substitution and final strip keep the text unchanged. -/
theorem pVal_no_dash {fp : FieldPat} {s cap : List Char} (hmin : fp.minCap = 1)
    (hmem : dashAlt ∈ fp.look) (h : searchField fp s = some cap) :
    dashSearch (pVal (some cap)).data = none := by
  obtain ⟨u, hu⟩ := searchField_matchAt h
  obtain ⟨r, rest, hcs⟩ := matchFieldAt_capStop hu
  rw [hmin] at hcs
  have hint := cap_interior hmem hcs
  have hstr := transfer_strip hint
  have hnod := suffix_no_dashMatch hstr
  have hid : subDashes (pyStrip cap) = pyStrip cap := subDashes_id hnod
  show dashSearch (pyStrip (subDashes (pyStrip cap))) = none
  rw [hid, pyStrip_idem]
  exact dashSearch_none hnod

/-- A string value free of any trailing separator line: the removal pattern
of the source finds nothing in it. -/
def noTrailingDashLine (s : String) : Prop := dashSearch s.data = none

theorem trimmed_empty : trimmed "" := rfl

theorem noTrailing_empty : noTrailingDashLine "" := rfl

theorem soapFrom_a_cases (x : List Char) :
    (soapFrom x).a = ⟨"", "", "", ""⟩ ∨
    (soapFrom x).a = ⟨stripVal (searchField symPat (rawCap (fieldVal aPats x))),
      stripVal (searchField riskPat (rawCap (fieldVal aPats x))),
      stripVal (searchField backPat (rawCap (fieldVal aPats x))),
      stripVal (searchField nextPat (rawCap (fieldVal aPats x)))⟩ := by
  unfold soapFrom
  by_cases h : (rawCap (fieldVal aPats x)).isEmpty = true
  · left; simp [h]
  · right; simp [h]

theorem soapFrom_p_cases (x : List Char) :
    (soapFrom x).p = ⟨"", ""⟩ ∨
    (soapFrom x).p = ⟨pVal (searchChain todayBold todayPlain (rawCap (fieldVal pPats x))),
      pVal (searchChain futureBold futurePlain (rawCap (fieldVal pPats x)))⟩ := by
  unfold soapFrom
  by_cases h : (rawCap (fieldVal pPats x)).isEmpty = true
  · left; simp [h]
  · right; simp [h]

theorem planFrom_cases (y : List Char) :
    planFrom y = ⟨"", "", ""⟩ ∨
    planFrom y = ⟨stripVal (searchChain longBold longPlain y),
      stripVal (searchChain shortBold shortPlain y),
      stripVal (searchChain policyBold policyPlain y)⟩ := by
  unfold planFrom
  by_cases h : y.isEmpty = true
  · left; simp [h]
  · right; simp [h]

theorem noTrailing_chain {a b : FieldPat} {pc : List Char}
    (hma : a.minCap = 1) (hmb : b.minCap = 1)
    (hla : dashAlt ∈ a.look) (hlb : dashAlt ∈ b.look) :
    noTrailingDashLine (pVal (searchChain a b pc)) := by
  unfold searchChain
  cases ha : searchField a pc with
  | some cap => exact pVal_no_dash hma hla ha
  | none =>
    cases hb : searchField b pc with
    | some cap => exact pVal_no_dash hmb hlb hb
    | none => exact noTrailing_empty

theorem noTrailing_today (x : List Char) :
    noTrailingDashLine (soapFrom x).p.todayInterventions := by
  rcases soapFrom_p_cases x with h | h <;> rw [h]
  · exact noTrailing_empty
  · exact noTrailing_chain rfl rfl (by simp [todayBold]) (by simp [todayPlain])

theorem noTrailing_future (x : List Char) :
    noTrailingDashLine (soapFrom x).p.futurePolicy := by
  rcases soapFrom_p_cases x with h | h <;> rw [h]
  · exact noTrailing_empty
  · exact noTrailing_chain rfl rfl (by simp [futureBold]) (by simp [futurePlain])

theorem trimmed_chain {a b : FieldPat} {pc : List Char} :
    trimmed (stripVal (searchChain a b pc)) := trimmed_stripVal _

set_option maxHeartbeats 3200000 in
/-- Claim C10: for every input, each of the eleven leaf values of the two
records is trimmed (stripping it changes nothing, so it carries no leading or
trailing whitespace), and the two plan-of-care sub-field values additionally
contain no trailing separator line (the removal pattern of the source finds
no match in them). -/
theorem c10_trimmed_and_separator_free (text : String) :
    trimmed (parse_soap_response text).soap.s ∧
    trimmed (parse_soap_response text).soap.o ∧
    trimmed (parse_soap_response text).soap.a.symptomProgression ∧
    trimmed (parse_soap_response text).soap.a.riskAssessment ∧
    trimmed (parse_soap_response text).soap.a.backgroundFactors ∧
    trimmed (parse_soap_response text).soap.a.nextObservationPoints ∧
    trimmed (parse_soap_response text).soap.p.todayInterventions ∧
    trimmed (parse_soap_response text).soap.p.futurePolicy ∧
    trimmed (parse_soap_response text).plan.longTermGoal ∧
    trimmed (parse_soap_response text).plan.shortTermGoal ∧
    trimmed (parse_soap_response text).plan.nursingPolicy ∧
    noTrailingDashLine (parse_soap_response text).soap.p.todayInterventions ∧
    noTrailingDashLine (parse_soap_response text).soap.p.futurePolicy := by
  unfold parse_soap_response
  by_cases he : text.data = []
  · rw [if_pos he]
    exact ⟨rfl, rfl, rfl, rfl, rfl, rfl, rfl, rfl, rfl, rfl, rfl, rfl, rfl⟩
  · rw [if_neg he]
    show trimmed (soapFrom (splitSections (cleanedOf text)).1).s ∧
      trimmed (soapFrom (splitSections (cleanedOf text)).1).o ∧
      trimmed (soapFrom (splitSections (cleanedOf text)).1).a.symptomProgression ∧
      trimmed (soapFrom (splitSections (cleanedOf text)).1).a.riskAssessment ∧
      trimmed (soapFrom (splitSections (cleanedOf text)).1).a.backgroundFactors ∧
      trimmed (soapFrom (splitSections (cleanedOf text)).1).a.nextObservationPoints ∧
      trimmed (soapFrom (splitSections (cleanedOf text)).1).p.todayInterventions ∧
      trimmed (soapFrom (splitSections (cleanedOf text)).1).p.futurePolicy ∧
      trimmed (planFrom (splitSections (cleanedOf text)).2).longTermGoal ∧
      trimmed (planFrom (splitSections (cleanedOf text)).2).shortTermGoal ∧
      trimmed (planFrom (splitSections (cleanedOf text)).2).nursingPolicy ∧
      noTrailingDashLine (soapFrom (splitSections (cleanedOf text)).1).p.todayInterventions ∧
      noTrailingDashLine (soapFrom (splitSections (cleanedOf text)).1).p.futurePolicy
    refine ⟨trimmed_stripVal _, trimmed_stripVal _, ?_, ?_, ?_, ?_, ?_, ?_, ?_, ?_, ?_,
      noTrailing_today _, noTrailing_future _⟩
    · rcases soapFrom_a_cases (splitSections (cleanedOf text)).1 with h | h <;> rw [h]
      · exact trimmed_empty
      · exact trimmed_stripVal _
    · rcases soapFrom_a_cases (splitSections (cleanedOf text)).1 with h | h <;> rw [h]
      · exact trimmed_empty
      · exact trimmed_stripVal _
    · rcases soapFrom_a_cases (splitSections (cleanedOf text)).1 with h | h <;> rw [h]
      · exact trimmed_empty
      · exact trimmed_stripVal _
    · rcases soapFrom_a_cases (splitSections (cleanedOf text)).1 with h | h <;> rw [h]
      · exact trimmed_empty
      · exact trimmed_stripVal _
    · rcases soapFrom_p_cases (splitSections (cleanedOf text)).1 with h | h <;> rw [h]
      · exact trimmed_empty
      · exact trimmed_pVal _
    · rcases soapFrom_p_cases (splitSections (cleanedOf text)).1 with h | h <;> rw [h]
      · exact trimmed_empty
      · exact trimmed_pVal _
    · rcases planFrom_cases (splitSections (cleanedOf text)).2 with h | h <;> rw [h]
      · exact trimmed_empty
      · exact trimmed_stripVal _
    · rcases planFrom_cases (splitSections (cleanedOf text)).2 with h | h <;> rw [h]
      · exact trimmed_empty
      · exact trimmed_stripVal _
    · rcases planFrom_cases (splitSections (cleanedOf text)).2 with h | h <;> rw [h]
      · exact trimmed_empty
      · exact trimmed_stripVal _

/-! Claim C3: the visit-information strip. We show that re-parsing the
cleaned text gives the same result as parsing the original, provided the
original contains no carriage return; a carriage return just before the
removed block can fuse with the newline after it into a carriage-return plus
line-feed pair that only the second parse normalises, which refutes the
unrestricted claim. The development needs: the substitution output contains
no occurrence of the visit-information header, the substitution is the
identity without such an occurrence, and stripping and normalisation are
idempotent on the cleaned text. -/

/-- Case-insensitive substring occurrence, mirroring where a pattern headed
by the given literal could match. -/
def hasOccCI (m : List Char) : List Char → Bool
  | [] => ciStarts m []
  | s@(_ :: t) => ciStarts m s || hasOccCI m t

theorem ciStarts_nil_inv {m : List Char} (h : ciStarts m [] = true) : m = [] := by
  cases m with
  | nil => rfl
  | cons a as => simp [ciStarts] at h

theorem ciStarts_append_right {m : List Char} :
    ∀ {u : List Char}, ciStarts m u = true → ∀ v, ciStarts m (u ++ v) = true := by
  induction m with
  | nil => intro u _ v; cases u ++ v <;> rfl
  | cons a as ih =>
    intro u h v
    cases u with
    | nil => simp [ciStarts] at h
    | cons b bs =>
      rw [show ciStarts (a :: as) (b :: bs) = (ciEq a b && ciStarts as bs) from rfl,
        Bool.and_eq_true] at h
      show (ciEq a b && ciStarts as (bs ++ v)) = true
      rw [Bool.and_eq_true]
      exact ⟨h.1, ih h.2 v⟩

theorem hasOccCI_nil_all {v : List Char} : hasOccCI ([] : List Char) v = true := by
  cases v <;> rfl

theorem occCI_append_right {m : List Char} :
    ∀ {u : List Char}, hasOccCI m u = true → ∀ v, hasOccCI m (u ++ v) = true := by
  intro u
  induction u with
  | nil =>
    intro h v
    have := ciStarts_nil_inv (by simpa [hasOccCI] using h)
    subst this
    simpa using hasOccCI_nil_all
  | cons c u' ih =>
    intro h v
    rw [show hasOccCI m (c :: u') = (ciStarts m (c :: u') || hasOccCI m u') from rfl,
      Bool.or_eq_true] at h
    show hasOccCI m (c :: (u' ++ v)) = true
    rw [show hasOccCI m (c :: (u' ++ v)) =
      (ciStarts m (c :: (u' ++ v)) || hasOccCI m (u' ++ v)) from rfl, Bool.or_eq_true]
    rcases h with h | h
    · left
      have := ciStarts_append_right h v
      simpa using this
    · right; exact ih h v

theorem occCI_append_left {m u : List Char} (h : hasOccCI m u = true) :
    ∀ p, hasOccCI m (p ++ u) = true := by
  intro p
  induction p with
  | nil => exact h
  | cons a p' ih =>
    show hasOccCI m (a :: (p' ++ u)) = true
    rw [show hasOccCI m (a :: (p' ++ u)) =
      (ciStarts m (a :: (p' ++ u)) || hasOccCI m (p' ++ u)) from rfl, Bool.or_eq_true]
    right; exact ih

theorem occCI_mono {m z' z : List Char} (hinf : z' <:+: z)
    (h : hasOccCI m z' = true) : hasOccCI m z = true := by
  obtain ⟨p, q, hpq⟩ := hinf
  rw [← hpq]
  have h1 := occCI_append_right h q
  have h2 := occCI_append_left h1 p
  simpa using h2

theorem pyStrip_within (l : List Char) : pyStrip l <:+: l :=
  List.IsInfix.trans (List.IsPrefix.isInfix (pyStrip_pre l))
    (List.IsSuffix.isInfix (List.dropWhile_suffix isWs))

theorem mem_replCRLF : ∀ (l : List Char) (c : Char), c ∈ replCRLF l → c ∈ l := by
  intro l
  induction l using replCRLF.induct with
  | case1 => intro c h; simp [replCRLF] at h
  | case2 a => intro c h; simpa [replCRLF] using h
  | case3 a b t hab ih =>
    intro c h
    rw [show replCRLF (a :: b :: t) = '\n' :: replCRLF t from by
      simp only [replCRLF]; rw [if_pos hab]] at h
    rw [Bool.and_eq_true, beq_iff_eq, beq_iff_eq] at hab
    rcases List.mem_cons.mp h with rfl | h2
    · simp [hab.2]
    · simp [ih _ h2]
  | case4 a b t hab ih =>
    intro c h
    rw [show replCRLF (a :: b :: t) = a :: replCRLF (b :: t) from by
      simp only [replCRLF]; rw [if_neg hab]] at h
    rcases List.mem_cons.mp h with rfl | h2
    · simp
    · simp [ih _ h2]

theorem replCRLF_id : ∀ (l : List Char), (∀ c ∈ l, c ≠ '\r') → replCRLF l = l := by
  intro l
  induction l using replCRLF.induct with
  | case1 => intro _; rfl
  | case2 a => intro _; rfl
  | case3 a b t hab _ =>
    intro h
    rw [Bool.and_eq_true, beq_iff_eq] at hab
    exact absurd hab.1 (h a (by simp))
  | case4 a b t hab ih =>
    intro h
    rw [show replCRLF (a :: b :: t) = a :: replCRLF (b :: t) from by
      simp only [replCRLF]; rw [if_neg hab]]
    rw [ih (fun c hc => h c (by simp [hc]))]

theorem startsWithEx_cons {a : Char} {as b bs} :
    startsWithEx (a :: as) (b :: bs) = (a == b && startsWithEx as bs) := rfl

theorem startsWithEx_nil_left (u : List Char) : startsWithEx [] u = true := by
  cases u <;> rfl

theorem lookAny_dollar {look : List (List Tok)} (hd : [Tok.dollar] ∈ look) :
    lookAny look [] = true := by
  unfold lookAny
  rw [List.any_eq_true]
  exact ⟨[Tok.dollar], hd, rfl⟩

/-- With the end anchor among the lookahead alternatives and no minimum left,
the lazy capture always stops somewhere (at the end of the text at latest). -/
theorem capStop_total {look : List (List Tok)} (hd : [Tok.dollar] ∈ look) :
    ∀ (s acc : List Char), ∃ pr, capStop look 0 acc s = some pr := by
  intro s
  induction s with
  | nil =>
    intro acc
    have hc : (((0 : Nat) == 0) && lookAny look []) = true := by
      rw [lookAny_dollar hd]; rfl
    refine ⟨(acc.reverse, []), ?_⟩
    unfold capStop
    rw [if_pos hc]
  | cons c t ih =>
    intro acc
    unfold capStop
    by_cases hc : (((0 : Nat) == 0) && lookAny look (c :: t)) = true
    · rw [if_pos hc]; exact ⟨_, rfl⟩
    · rw [if_neg hc]; exact ih (c :: acc)

theorem toksMatch_lit_isSome {α : Type} {l : List Char} {ts : List Tok} {s : List Char}
    {k : List Char → Option α} (h : (toksMatch (Tok.lit l :: ts) s k).isSome = true) :
    ciStarts l s = true := by
  rw [toksMatch] at h
  by_cases hc : ciStarts l s = true
  · exact hc
  · rw [if_neg hc] at h; simp at h

theorem toksMatch_dollar_isSome {α : Type} {ts : List Tok} {s : List Char}
    {k : List Char → Option α} (h : (toksMatch (Tok.dollar :: ts) s k).isSome = true) :
    s = [] ∨ s = ['\n'] := by
  rw [toksMatch] at h
  by_cases hc : (s.isEmpty || s == ['\n']) = true
  · rcases (by simpa using hc : s.isEmpty = true ∨ (s == ['\n']) = true) with h2 | h2
    · exact Or.inl (List.isEmpty_iff.mp h2)
    · exact Or.inr (by simpa using h2)
  · rw [if_neg hc] at h; simp at h

/-- After a visit-information match, the remaining text is empty or starts
with a newline or a hash: the lookahead of the removal pattern allows nothing
else. -/
theorem visitRest_head {s cap rest : List Char}
    (h : capStop visitLook 0 [] s = some (cap, rest)) :
    rest = [] ∨ rest.head? = some '\n' ∨ rest.head? = some '#' := by
  obtain ⟨d, _, _, _, hfin⟩ := capStop_spec h
  have hlook := hfin.2
  unfold lookAny at hlook
  rw [List.any_eq_true] at hlook
  obtain ⟨alt, hmem, halt⟩ := hlook
  unfold visitLook at hmem
  rcases List.mem_cons.mp hmem with rfl | hmem2
  · have hst := toksMatch_lit_isSome halt
    rw [ciStarts_caseless (by decide)] at hst
    have h2 := startsWithEx_append hst
    right; left
    rw [h2]; rfl
  rcases List.mem_cons.mp hmem2 with rfl | hmem3
  · have hst := toksMatch_lit_isSome halt
    rw [ciStarts_caseless (by decide)] at hst
    have h2 := startsWithEx_append hst
    right; right
    rw [h2]; rfl
  rcases List.mem_cons.mp hmem3 with rfl | hmem4
  · rcases toksMatch_dollar_isSome halt with h2 | h2
    · exact Or.inl h2
    · right; left; rw [h2]; rfl
  · simp at hmem4

theorem visitMatchAt_inv {s rest : List Char} (hm : visitMatchAt s = some rest) :
    ∃ cap, capStop visitLook 0 [] (s.drop visitLit.length) = some (cap, rest) := by
  unfold visitMatchAt at hm
  split at hm
  · obtain ⟨⟨cap, r⟩, hc, hr⟩ := Option.map_eq_some'.mp hm
    have h5 : r = rest := by simpa using hr
    subst h5
    exact ⟨cap, hc⟩
  · simp at hm

theorem capStop_rest_suffix {look : List (List Tok)} {need : Nat}
    {acc s cap rest : List Char}
    (h : capStop look need acc s = some (cap, rest)) : rest <:+ s := by
  obtain ⟨d, hs, _, _, _⟩ := capStop_spec h
  exact ⟨d, hs.symm⟩

theorem visit_drop_nil (j : Nat) (hj1 : 1 ≤ j) (hj5 : j ≤ 5) :
    startsWithEx (visitLit.drop j) [] = false := by
  rcases (by omega : j = 1 ∨ j = 2 ∨ j = 3 ∨ j = 4 ∨ j = 5) with
    rfl | rfl | rfl | rfl | rfl <;> decide

theorem visit_tail_head (j : Nat) (hj1 : 1 ≤ j) (hj5 : j ≤ 5) {r0 : Char} {rt : List Char}
    (h : startsWithEx (visitLit.drop j) (r0 :: rt) = true) : r0 ≠ '\n' ∧ r0 ≠ '#' := by
  rcases (by omega : j = 1 ∨ j = 2 ∨ j = 3 ∨ j = 4 ∨ j = 5) with rfl | rfl | rfl | rfl | rfl
  · have h2 : ('訪' == r0 && startsWithEx "問情報】".data rt) = true := h
    rw [Bool.and_eq_true, beq_iff_eq] at h2
    rw [← h2.1]
    exact ⟨by decide, by decide⟩
  · have h2 : ('問' == r0 && startsWithEx "情報】".data rt) = true := h
    rw [Bool.and_eq_true, beq_iff_eq] at h2
    rw [← h2.1]
    exact ⟨by decide, by decide⟩
  · have h2 : ('情' == r0 && startsWithEx "報】".data rt) = true := h
    rw [Bool.and_eq_true, beq_iff_eq] at h2
    rw [← h2.1]
    exact ⟨by decide, by decide⟩
  · have h2 : ('報' == r0 && startsWithEx "】".data rt) = true := h
    rw [Bool.and_eq_true, beq_iff_eq] at h2
    rw [← h2.1]
    exact ⟨by decide, by decide⟩
  · have h2 : ('】' == r0 && startsWithEx [] rt) = true := h
    rw [Bool.and_eq_true, beq_iff_eq] at h2
    rw [← h2.1]
    exact ⟨by decide, by decide⟩

theorem mem_subVisitF :
    ∀ (fuel : Nat) (s : List Char) (c : Char), c ∈ subVisitF fuel s → c ∈ s := by
  intro fuel
  induction fuel with
  | zero => intro s c h; exact h
  | succ n ih =>
    intro s c h
    cases s with
    | nil => simpa [subVisitF] using h
    | cons a t =>
      cases hm : visitMatchAt (a :: t) with
      | some rest =>
        rw [show subVisitF (n + 1) (a :: t) = subVisitF n rest from by
          simp only [subVisitF]; rw [hm]] at h
        have h2 := ih rest c h
        obtain ⟨cap, hc⟩ := visitMatchAt_inv hm
        have hsuf := capStop_rest_suffix hc
        exact List.mem_of_mem_drop (hsuf.subset h2)
      | none =>
        rw [show subVisitF (n + 1) (a :: t) = a :: subVisitF n t from by
          simp only [subVisitF]; rw [hm]] at h
        rcases List.mem_cons.mp h with rfl | h2
        · simp
        · simp [ih t c h2]

/-- Partial-header preservation: if a proper tail of the visit-information
header literal starts the substituted text, it already started the original
text there. The header's tail characters are never a newline or a hash, so
they cannot be produced at a removal seam. -/
theorem subVisitF_keeps :
    ∀ (fuel : Nat) (s : List Char) (j : Nat), 1 ≤ j → j ≤ 5 →
    startsWithEx (visitLit.drop j) (subVisitF fuel s) = true →
    startsWithEx (visitLit.drop j) s = true := by
  intro fuel
  induction fuel with
  | zero => intro s j _ _ h; exact h
  | succ n ih =>
    intro s j hj1 hj5 h
    cases s with
    | nil =>
      rw [show subVisitF (n + 1) ([] : List Char) = [] from rfl] at h
      rw [visit_drop_nil j hj1 hj5] at h
      exact absurd h (by simp)
    | cons a t =>
      cases hm : visitMatchAt (a :: t) with
      | some rest =>
        rw [show subVisitF (n + 1) (a :: t) = subVisitF n rest from by
          simp only [subVisitF]; rw [hm]] at h
        have h2 := ih rest j hj1 hj5 h
        exfalso
        obtain ⟨cap, hc⟩ := visitMatchAt_inv hm
        have hrh := visitRest_head hc
        cases rest with
        | nil =>
          rw [visit_drop_nil j hj1 hj5] at h2
          exact absurd h2 (by simp)
        | cons r0 rt =>
          have hne := visit_tail_head j hj1 hj5 h2
          rcases hrh with h3 | h3 | h3
          · simp at h3
          · exact hne.1 (by simpa using h3)
          · exact hne.2 (by simpa using h3)
      | none =>
        rw [show subVisitF (n + 1) (a :: t) = a :: subVisitF n t from by
          simp only [subVisitF]; rw [hm]] at h
        rcases (by omega : j = 1 ∨ j = 2 ∨ j = 3 ∨ j = 4 ∨ j = 5) with
          rfl | rfl | rfl | rfl | rfl
        · have h2 : ('訪' == a && startsWithEx (visitLit.drop 2) (subVisitF n t)) = true := h
          rw [Bool.and_eq_true] at h2
          show ('訪' == a && startsWithEx (visitLit.drop 2) t) = true
          rw [Bool.and_eq_true]
          exact ⟨h2.1, ih t 2 (by omega) (by omega) h2.2⟩
        · have h2 : ('問' == a && startsWithEx (visitLit.drop 3) (subVisitF n t)) = true := h
          rw [Bool.and_eq_true] at h2
          show ('問' == a && startsWithEx (visitLit.drop 3) t) = true
          rw [Bool.and_eq_true]
          exact ⟨h2.1, ih t 3 (by omega) (by omega) h2.2⟩
        · have h2 : ('情' == a && startsWithEx (visitLit.drop 4) (subVisitF n t)) = true := h
          rw [Bool.and_eq_true] at h2
          show ('情' == a && startsWithEx (visitLit.drop 4) t) = true
          rw [Bool.and_eq_true]
          exact ⟨h2.1, ih t 4 (by omega) (by omega) h2.2⟩
        · have h2 : ('報' == a && startsWithEx (visitLit.drop 5) (subVisitF n t)) = true := h
          rw [Bool.and_eq_true] at h2
          show ('報' == a && startsWithEx (visitLit.drop 5) t) = true
          rw [Bool.and_eq_true]
          exact ⟨h2.1, ih t 5 (by omega) (by omega) h2.2⟩
        · have h2 : ('】' == a && startsWithEx [] (subVisitF n t)) = true := h
          rw [Bool.and_eq_true] at h2
          show ('】' == a && startsWithEx [] t) = true
          rw [Bool.and_eq_true]
          exact ⟨h2.1, startsWithEx_nil_left t⟩

/-- The visit-information substitution leaves no occurrence of the header in
its output: every occurrence in the original is removed, and no new one can
form at a removal seam. -/
theorem subVisitF_no_occ :
    ∀ (fuel : Nat) (s : List Char), s.length < fuel →
    hasOccCI visitLit (subVisitF fuel s) = false := by
  intro fuel
  induction fuel with
  | zero => intro s h; omega
  | succ n ih =>
    intro s hlen
    cases s with
    | nil => rfl
    | cons a t =>
      cases hm : visitMatchAt (a :: t) with
      | some rest =>
        rw [show subVisitF (n + 1) (a :: t) = subVisitF n rest from by
          simp only [subVisitF]; rw [hm]]
        have hr : rest.length < t.length + 1 := by
          simpa using visitMatchAt_length hm (by simp)
        apply ih rest
        have hlen2 : t.length + 1 < n + 1 := by simpa using hlen
        omega
      | none =>
        rw [show subVisitF (n + 1) (a :: t) = a :: subVisitF n t from by
          simp only [subVisitF]; rw [hm]]
        have ht : hasOccCI visitLit (subVisitF n t) = false := by
          apply ih t
          simp at hlen
          omega
        rw [show hasOccCI visitLit (a :: subVisitF n t) =
          (ciStarts visitLit (a :: subVisitF n t) || hasOccCI visitLit (subVisitF n t))
          from rfl, ht, Bool.or_false]
        by_cases hcs : ciStarts visitLit (a :: subVisitF n t) = true
        · exfalso
          rw [ciStarts_caseless (by decide)] at hcs
          rw [show visitLit = '【' :: visitLit.drop 1 from rfl, startsWithEx_cons,
            Bool.and_eq_true] at hcs
          have h2 := subVisitF_keeps n t 1 (by omega) (by omega) hcs.2
          have h3 : ciStarts visitLit (a :: t) = true := by
            rw [ciStarts_caseless (by decide)]
            rw [show visitLit = '【' :: visitLit.drop 1 from rfl, startsWithEx_cons,
              Bool.and_eq_true]
            exact ⟨hcs.1, h2⟩
          have h4 : visitMatchAt (a :: t) ≠ none := by
            unfold visitMatchAt
            rw [if_pos h3]
            obtain ⟨pr, hpr⟩ :=
              @capStop_total visitLook (by simp [visitLook]) ((a :: t).drop visitLit.length) []
            rw [hpr]
            simp
          exact h4 hm
        · exact Bool.eq_false_iff.mpr hcs

/-- Without an occurrence of the header, the substitution is the identity. -/
theorem subVisitF_id :
    ∀ (fuel : Nat) (s : List Char), hasOccCI visitLit s = false →
    subVisitF fuel s = s := by
  intro fuel
  induction fuel with
  | zero => intro s _; rfl
  | succ n ih =>
    intro s hocc
    cases s with
    | nil => rfl
    | cons a t =>
      rw [show hasOccCI visitLit (a :: t) =
        (ciStarts visitLit (a :: t) || hasOccCI visitLit t) from rfl,
        Bool.or_eq_false_iff] at hocc
      have hm : visitMatchAt (a :: t) = none := by
        unfold visitMatchAt
        rw [if_neg (by rw [hocc.1]; simp)]
      rw [show subVisitF (n + 1) (a :: t) = a :: subVisitF n t from by
        simp only [subVisitF]; rw [hm]]
      rw [ih t hocc.2]

/-- Input with a carriage return immediately before the visit-information
block: removing the block fuses the carriage return with the newline that
follows the block. -/
def c3x : String := "S（主観）\nあい\r【訪問情報】xx\n【う】\nO（客観）\nえ"

/-- Claim C3, counterexample: for this input with a visit-information block,
parsing the input differs from parsing the input with the block removed. The
removal glues a carriage return onto the newline after the block; only the
re-parse normalises the pair away, so the subjective values differ by the
carriage return. -/
theorem c3_counterexample :
    hasOccCI visitLit c3x.data = true ∧
    (parse_soap_response c3x).soap.s = "あい\r\n【う】" ∧
    (parse_soap_response (String.mk (cleanedOf c3x))).soap.s = "あい\n【う】" ∧
    parse_soap_response c3x ≠ parse_soap_response (String.mk (cleanedOf c3x)) := by
  refine ⟨by decide, by decide, by decide, ?_⟩
  intro h
  have h2 := congrArg (fun r => r.soap.s) h
  simp only at h2
  rw [show (parse_soap_response c3x).soap.s = "あい\r\n【う】" from by decide,
    show (parse_soap_response (String.mk (cleanedOf c3x))).soap.s = "あい\n【う】"
      from by decide] at h2
  exact absurd h2 (by decide)

/-- Claim C3, amended: for every input that contains a visit-information
block but no carriage-return character, the parse result equals the result of
parsing the cleaned text (the input with the visit-information blocks removed
and the ends stripped). The no-carriage-return condition is forced by the
counterexample above. -/
theorem c3_visit_strip (text : String)
    (hnocr : '\r' ∉ text.data)
    (hocc : hasOccCI visitLit text.data = true) :
    parse_soap_response text = parse_soap_response (String.mk (cleanedOf text)) := by
  have hne : text.data ≠ [] := by
    intro h0
    rw [h0] at hocc
    exact absurd hocc (by decide)
  have hmemy : ∀ c ∈ cleanedOf text, c ∈ text.data := by
    intro c hc
    have h1 : c ∈ subVisit (normalizeText text) := (pyStrip_within _).subset hc
    have h2 : c ∈ normalizeText text := mem_subVisitF _ _ _ h1
    have h3 : c ∈ replCRLF text.data := (pyStrip_within _).subset h2
    exact mem_replCRLF _ _ h3
  have hstep1 : replCRLF (cleanedOf text) = cleanedOf text := by
    apply replCRLF_id
    intro c hc hcr
    exact hnocr (hcr ▸ hmemy c hc)
  have hstep2 : pyStrip (cleanedOf text) = cleanedOf text := pyStrip_idem _
  have hno : hasOccCI visitLit (subVisit (normalizeText text)) = false :=
    subVisitF_no_occ _ _ (by omega)
  have hnoc : hasOccCI visitLit (cleanedOf text) = false := by
    cases hq : hasOccCI visitLit (cleanedOf text)
    · rfl
    · exfalso
      have h5 := occCI_mono (pyStrip_within (subVisit (normalizeText text))) hq
      have h6 := h5.symm.trans hno
      simp at h6
  have hstep3 : subVisit (cleanedOf text) = cleanedOf text := subVisitF_id _ _ hnoc
  have hkey : cleanedOf (String.mk (cleanedOf text)) = cleanedOf text := by
    calc cleanedOf (String.mk (cleanedOf text))
        = pyStrip (subVisit (pyStrip (replCRLF (cleanedOf text)))) := rfl
      _ = pyStrip (subVisit (pyStrip (cleanedOf text))) := by rw [hstep1]
      _ = pyStrip (subVisit (cleanedOf text)) := by rw [hstep2]
      _ = pyStrip (cleanedOf text) := by rw [hstep3]
      _ = cleanedOf text := hstep2
  unfold parse_soap_response
  by_cases hy0 : cleanedOf text = []
  · rw [if_neg hne, if_pos (show (String.mk (cleanedOf text)).data = [] from hy0)]
    have hsp : splitSections (cleanedOf text) = ([], []) := by rw [hy0]; decide
    show (⟨soapFrom (splitSections (cleanedOf text)).1,
      planFrom (splitSections (cleanedOf text)).2⟩ : ParseResult) = defaultResult
    rw [hsp]
    decide
  · rw [if_neg hne, if_neg (show ¬(String.mk (cleanedOf text)).data = [] from hy0)]
    show (⟨soapFrom (splitSections (cleanedOf text)).1,
        planFrom (splitSections (cleanedOf text)).2⟩ : ParseResult) =
      ⟨soapFrom (splitSections (cleanedOf (String.mk (cleanedOf text)))).1,
        planFrom (splitSections (cleanedOf (String.mk (cleanedOf text)))).2⟩
    rw [hkey]

/-- Input starting with a visit-information block whose content resembles a
section heading. -/
def c3w : String := "【訪問情報】\n利用者: 山田\n【症状推移】もどき\nS（主観）\n静か。\nO（客観）\n安静。"

/-- Claim C3, witness: parsing an input with a visit-information block whose
content mimics a heading equals parsing the cleaned text, and the block does
not disturb the extraction. -/
theorem c3_witness :
    parse_soap_response c3w = parse_soap_response (String.mk (cleanedOf c3w)) ∧
    (parse_soap_response c3w).soap.s = "静か。" ∧
    (parse_soap_response c3w).soap.o = "安静。" :=
  ⟨c3_visit_strip c3w (by decide) (by decide), by decide, by decide⟩

end SoapParse
